import Mathlib

/-!
Shallow embedding of the core document-structuring pipeline of
`pdf_to_json.py` (text segmentation, table classification, metadata
extraction, document assembly, JSON persistence), together with theorems
settling the frozen claims about it.
-/

/-! Basic character classes, modelling Python's ASCII-relevant behaviour. -/

/-- ASCII uppercase letter, the regex class [A-Z]. -/
def isUpperAZ (c : Char) : Bool := 'A' ≤ c && c ≤ 'Z'

/-- ASCII lowercase letter, the regex class [a-z]. -/
def isLowerAZ (c : Char) : Bool := 'a' ≤ c && c ≤ 'z'

/-- ASCII letter, the regex class [A-Za-z]. -/
def isAsciiLetter (c : Char) : Bool := isUpperAZ c || isLowerAZ c

/-- ASCII digit, the regex class \d. -/
def isDigitCh (c : Char) : Bool := '0' ≤ c && c ≤ '9'

/-- Cased character (ASCII model of Python's notion used by str.isupper). -/
def isCased (c : Char) : Bool := isUpperAZ c || isLowerAZ c

/-- Whitespace as recognised by Python str.strip / str.isspace and the
regex class \s (ASCII part plus the common Unicode space characters). -/
def pySpace (c : Char) : Bool :=
  c = ' ' || c = '\t' || c = '\n' || c = '\x0d' || c = '\x0b' || c = '\x0c' ||
  c = '\x1c' || c = '\x1d' || c = '\x1e' || c = '\x1f' || c = '\x85' || c = '\xa0' ||
  c = ' ' || (0x2000 ≤ c.toNat && c.toNat ≤ 0x200a) ||
  c = ' ' || c = ' ' || c = ' ' || c = ' ' || c = '　'

/-- Line-boundary characters of Python str.splitlines. -/
def isLineBoundary (c : Char) : Bool :=
  c = '\n' || c = '\x0d' || c = '\x0b' || c = '\x0c' ||
  c = '\x1c' || c = '\x1d' || c = '\x1e' || c = '\x85' ||
  c = ' ' || c = ' '

/-- Python str.lower in the ASCII range (maps A-Z to a-z, as in the inputs
the pipeline manipulates). -/
def lowerStr (s : String) : String := ⟨s.data.map Char.toLower⟩

/-- Python str.strip on a character list. -/
def stripChars (l : List Char) : List Char :=
  ((l.dropWhile pySpace).reverse.dropWhile pySpace).reverse

/-- Python str.strip. -/
def pyStrip (s : String) : String := ⟨stripChars s.data⟩

/-- Python str.rstrip. -/
def pyRstrip (s : String) : String := ⟨(s.data.reverse.dropWhile pySpace).reverse⟩

/-- Python str.splitlines on a character list: split at every line
boundary, with a carriage return followed by a newline counting as a
single boundary, and no empty trailing piece. -/
def splitlinesList : List Char → List (List Char)
  | [] => []
  | '\x0d' :: '\n' :: cs => [] :: splitlinesList cs
  | c :: cs =>
    if isLineBoundary c then [] :: splitlinesList cs
    else
      match splitlinesList cs with
      | [] => [[c]]
      | l :: ls => (c :: l) :: ls

/-- Python str.splitlines. -/
def pySplitlines (s : String) : List String :=
  (splitlinesList s.data).map (fun l => ⟨l⟩)

/-- Does the pattern occur at the start of the list? -/
def beginsWith : List Char → List Char → Bool
  | [], _ => true
  | _ :: _, [] => false
  | p :: ps, c :: cs => p = c && beginsWith ps cs

/-- Does the pattern occur anywhere in the list?  Models Python's
`pat in s` substring test. -/
def containsList (pat : List Char) : List Char → Bool
  | [] => pat.isEmpty
  | c :: cs => beginsWith pat (c :: cs) || containsList pat cs

/-- Python substring containment `pat in s`. -/
def strContains (s pat : String) : Bool := containsList pat.data s.data

/-! Table classifier: `classify_table` of pdf_to_json.py.  The header row
is lower-cased cell-wise and joined with single spaces, then an ordered
chain of substring rules is applied, first match wins. -/

/-- Join character lists with a separator, modelling Python str.join. -/
def joinSep (sep : List Char) : List (List Char) → List Char
  | [] => []
  | [x] => x
  | x :: xs => x ++ sep ++ joinSep sep xs

/-- Lower-cased, space-joined header row, the `header_str` of the code. -/
def headerStr (row : List String) : String :=
  ⟨joinSep [' '] (row.map (fun s => (lowerStr s).data))⟩

/-- Rule 1 condition: explicit scheme-performance header. -/
def rule1 (h : String) : Bool :=
  strContains h "scheme performance" ||
  (strContains h "performance" && strContains h "scheme") ||
  strContains h "ptp" || strContains h "last 1 year" || strContains h "since inception"

/-- Rule 2 condition: SIP-style performance header. -/
def rule2 (h : String) : Bool :=
  strContains h "sip" || strContains h "if you had invested"

/-- Rule 3 condition: portfolio/holdings header. -/
def rule3 (h : String) : Bool :=
  ["company", "issuer", "instrument", "name", "sector", "%", "weight", "net assets"].any
    (fun x => strContains h x)

/-- Rule 3 refinement: debt indicators inside a holdings header. -/
def rule3debt (h : String) : Bool :=
  strContains h "debt" || strContains h "credit rating"

/-- Rule 4 condition: allocation header. -/
def rule4 (h : String) : Bool :=
  ["sector allocation", "group allocation", "market capitalisation", "allocation"].any
    (fun x => strContains h x)

/-- Rule 5 condition: risk-metrics header. -/
def rule5 (h : String) : Bool :=
  ["riskometer", "risk profile", "std. dev", "beta", "sharpe", "treynor", "risk"].any
    (fun x => strContains h x)

/-- Rule 6 condition: macro/economic header. -/
def rule6 (h : String) : Bool :=
  ["macro", "economic", "indicators", "gdp", "inflation"].any
    (fun x => strContains h x)

/-- Classification of a joined header string by the ordered rules. -/
def classifyHeader (h : String) : Option String × Option String :=
  if rule1 h then (some "scheme_performance", some "Performance Data")
  else if rule2 h then (some "scheme_performance", some "SIP Performance")
  else if rule3 h then
    if rule3debt h then (some "debt_portfolio", some "Debt Holdings")
    else (some "portfolio", some "Holdings")
  else if rule4 h then (some "allocation", some "Allocation Data")
  else if rule5 h then (some "risk", some "Risk Metrics")
  else if rule6 h then (some "macro", some "Economic Indicators")
  else (none, none)

/-- The table classifier `classify_table`: an empty table is unclassified
immediately; otherwise the ordered rules are applied to the header row. -/
def classify_table (table : List (List String)) : Option String × Option String :=
  match table with
  | [] => (none, none)
  | row0 :: _ => classifyHeader (headerStr row0)

/-! Text segmenter: `detect_sections_from_text` of pdf_to_json.py. -/

/-- Python str.isupper (ASCII model): at least one cased character and no
lowercase cased character. -/
def pyIsUpper (s : String) : Bool :=
  s.data.any isCased && s.data.all (fun c => !isLowerAZ c)

/-- Helper for the markdown-heading regex: skip further whitespace, then
require an ASCII uppercase letter. -/
def mdHeadAux : List Char → Bool
  | [] => false
  | c :: cs => if pySpace c then mdHeadAux cs else isUpperAZ c

/-- The regex match `^#\s+[A-Z]`: a hash, one or more whitespace
characters, then an uppercase letter. -/
def mdHeadingMatch (s : String) : Bool :=
  match s.data with
  | '#' :: c :: cs => pySpace c && mdHeadAux (c :: cs)
  | _ => false

/-- Character class [A-Za-z\s] of the subsection regex. -/
def isLetterOrSpace (c : Char) : Bool := isAsciiLetter c || pySpace c

/-- Helper for the subsection regex: zero or more [A-Za-z\s] characters
followed by a colon. -/
def subsecAux : List Char → Bool
  | [] => false
  | c :: cs => if c = ':' then true else isLetterOrSpace c && subsecAux cs

/-- The regex match `^[A-Za-z][A-Za-z\s]+:`: a letter, one or more
letters/whitespace, then a colon. -/
def subsecMatch (s : String) : Bool :=
  match s.data with
  | c :: c2 :: cs => isAsciiLetter c && (isLetterOrSpace c2 && subsecAux cs)
  | _ => false

/-- Main-heading test of the segmenter: fully upper-case and shorter than
120 characters, or a markdown-style heading. -/
def isMainHeading (line : String) : Bool :=
  (pyIsUpper line && line.length < 120) || mdHeadingMatch line

/-- The `clean_text` helper: split into lines, strip each, drop blanks,
join with single spaces. -/
def clean_text (s : String) : String :=
  if s.data.isEmpty then ⟨[]⟩
  else ⟨joinSep [' '] (((splitlinesList s.data).map stripChars).filter (fun l => !l.isEmpty))⟩

/-- Join buffered lines with newlines, modelling `"\n".join(current_text)`. -/
def joinNLData (ls : List String) : String := ⟨joinSep ['\n'] (ls.map String.data)⟩

/-- One emitted paragraph record, carrying the section, optional
subsection and cleaned text (the dict's fixed "type" key is implicit). -/
structure Paragraph where
  sect : String
  sub_section : Option String
  text : String
deriving DecidableEq

/-- Mutable state of the segmentation loop. -/
structure SegState where
  current_section : Option String
  current_subsection : Option String
  current_text : List String
  result : List Paragraph
deriving DecidableEq

/-- Flush the pending buffer as a paragraph, but only when the current
section is truthy and the buffer non-empty (Python's
`if current_section and current_text`); otherwise leave the state — and
in particular the buffer — untouched. -/
def flushPar (st : SegState) : SegState :=
  match st.current_section with
  | some s =>
    if !s.data.isEmpty && !st.current_text.isEmpty then
      { st with
        result := st.result ++ [⟨s, st.current_subsection, clean_text (joinNLData st.current_text)⟩],
        current_text := [] }
    else st
  | none => st

/-- One iteration of the segmentation loop over a raw line. -/
def segStep (st : SegState) (rawLine : String) : SegState :=
  let line := pyStrip rawLine
  if line.data.isEmpty then st
  else if isMainHeading line then
    let st1 := flushPar st
    { st1 with
      current_section := some (pyStrip ⟨line.data.filter (fun c => !(c = '#'))⟩),
      current_subsection := none }
  else if subsecMatch line && line.length < 120 then
    let st1 := flushPar st
    { st1 with current_subsection := some line }
  else
    { st with current_text := st.current_text ++ [line] }

/-- The text segmenter `detect_sections_from_text`: split into
right-stripped lines, run the stateful loop, and flush a final pending
buffer under the same truthiness condition. -/
def detect_sections_from_text (text : String) : List Paragraph :=
  if text.data.isEmpty then []
  else
    (flushPar (((pySplitlines text).map pyRstrip).foldl segStep ⟨none, none, [], []⟩)).result

/-! Metadata extractor: `extract_metadata` of pdf_to_json.py. -/

/-- The six-field metadata record; every field defaults to the sentinel
"N/A". -/
structure Metadata where
  fund_name : String
  aum : String
  benchmark : String
  additional_benchmark : String
  fund_manager : String
  launch_date : String
deriving DecidableEq

/-- Initial metadata record, all fields "N/A". -/
def initMetadata : Metadata := ⟨"N/A", "N/A", "N/A", "N/A", "N/A", "N/A"⟩

/-- Skip condition on the lower-cased line: disclaimers, page footers and
"mutual fund:" lines are never matched against any rule. -/
def skipLine (low : String) : Bool :=
  strContains low "disclaimer" || strContains low "page |" || strContains low "mutual fund:"

/-- Character class [A-Z\s] of the fund-name regex. -/
def isUpOrSpace (c : Char) : Bool := isUpperAZ c || pySpace c

/-- Helper for the fund-name regex: consume one or more [A-Z\s]
characters, then find FUND or SCHEME; the recursion realises the
backtracking of the greedy quantifier. -/
def fundNameAux : List Char → Bool
  | [] => false
  | c :: cs =>
    isUpOrSpace c &&
      (beginsWith "FUND".data cs || beginsWith "SCHEME".data cs || fundNameAux cs)

/-- The regex match `^[A-Z][A-Z\s]+(FUND|SCHEME)`. -/
def fundNameMatch (s : String) : Bool :=
  match s.data with
  | c :: cs => isUpperAZ c && fundNameAux cs
  | [] => false

/-- Python `line.split(":", 1)[1].strip()` when the line has a colon,
else `line.strip()`. -/
def afterColonOrSelf (line : String) : String :=
  if line.data.contains ':' then
    pyStrip ⟨(line.data.dropWhile (fun c => !(c = ':'))).drop 1⟩
  else pyStrip line

/-- Case-insensitive prefix test against a lower-case pattern. -/
def ciBegins : List Char → List Char → Bool
  | [], _ => true
  | _ :: _, [] => false
  | p :: ps, c :: cs => Char.toLower c = p && ciBegins ps cs

/-- Character class [\d,\.] of the AUM regex. -/
def isAumCh (c : Char) : Bool := isDigitCh c || c = ',' || c = '.'

/-- Unit alternatives of the AUM regex, in alternation order ("cr" first,
so "crore" text always matches as "cr"). -/
def aumUnits : List (List Char) :=
  ["cr", "crore", "lakh", "million", "billion"].map String.data

/-- Match of `[\d,\.]+\s*(cr|crore|lakh|million|billion)` anchored at the
start of the list, returning the matched substring.  Because the three
character classes and the unit initials are pairwise disjoint, the greedy
maximal runs are the only candidates the regex backtracking could ever
accept, so no explicit backtracking is needed. -/
def aumAtStart (l : List Char) : Option (List Char) :=
  let run := l.takeWhile isAumCh
  if run.isEmpty then none
  else
    let rest1 := l.drop run.length
    let sps := rest1.takeWhile pySpace
    let rest2 := rest1.drop sps.length
    match aumUnits.find? (fun u => ciBegins u rest2) with
    | some u => some (run ++ sps ++ rest2.take u.length)
    | none => none

/-- Leftmost search for the AUM pattern, as in `re.search`. -/
def aumSearchData : List Char → Option (List Char)
  | [] => none
  | c :: cs =>
    match aumAtStart (c :: cs) with
    | some m => some m
    | none => aumSearchData cs

/-- The AUM amount-with-unit search on a line. -/
def aumSearch (line : String) : Option String :=
  (aumSearchData line.data).map (fun l => ⟨l⟩)

/-- Month-name prefixes of the launch-date regex, in alternation order. -/
def months : List (List Char) :=
  ["jan", "feb", "mar", "apr", "may", "jun", "jul", "aug", "sep", "oct", "nov", "dec"].map
    String.data

/-- Tail of the first launch-date alternative after the day digits:
`\s+(month)[a-z]*\s+\d{2,4}` (case-insensitive; [a-z]* under IGNORECASE
matches any ASCII letter).  Again classes are disjoint, so maximal runs
suffice. -/
def dateTail (rest : List Char) : Option (List Char) :=
  let sp1 := rest.takeWhile pySpace
  if sp1.isEmpty then none
  else
    let r1 := rest.drop sp1.length
    match months.find? (fun m => ciBegins m r1) with
    | none => none
    | some m =>
      let r2 := r1.drop m.length
      let ltr := r2.takeWhile isAsciiLetter
      let r3 := r2.drop ltr.length
      let sp2 := r3.takeWhile pySpace
      if sp2.isEmpty then none
      else
        let r4 := r3.drop sp2.length
        let dg := r4.takeWhile isDigitCh
        if dg.length < 2 then none
        else some (sp1 ++ r1.take m.length ++ ltr ++ sp2 ++ dg.take 4)

/-- First launch-date alternative `\d{1,2}\s+(month)[a-z]*\s+\d{2,4}`
anchored at the start; the greedy day quantifier tries two digits before
one. -/
def dateAlt1 (l : List Char) : Option (List Char) :=
  let run := l.takeWhile isDigitCh
  if run.isEmpty then none
  else
    let try2 : Option (List Char) :=
      if 2 ≤ run.length then (dateTail (l.drop 2)).map (fun t => l.take 2 ++ t) else none
    match try2 with
    | some m => some m
    | none => (dateTail (l.drop 1)).map (fun t => l.take 1 ++ t)

/-- Date separator class: a hyphen or a slash. -/
def isDateSep (c : Char) : Bool := c = '-' || c = '/'

/-- Final year component `\d{2,4}` of the second date alternative. -/
def dateAlt2End (r3 : List Char) : Option (List Char) :=
  let dg := r3.takeWhile isDigitCh
  if dg.length < 2 then none else some (dg.take 4)

/-- Middle component of the second date alternative — month digits, a
separator, then the year — for a fixed greedy choice k2 of month digits. -/
def dateAlt2Mid (r2 : List Char) (k2 : Nat) : Option (List Char) :=
  if (r2.takeWhile isDigitCh).length < k2 || k2 = 0 then none
  else
    match r2.drop k2 with
    | s2 :: r3 =>
      if isDateSep s2 then (dateAlt2End r3).map (fun e => r2.take k2 ++ s2 :: e) else none
    | [] => none

/-- Second launch-date alternative — day digits, separator, month digits,
separator, year digits (`\d` runs of bounded length, each separator a
hyphen or slash) — anchored at the start, with the greedy two-then-one
backtracking of both bounded day/month quantifiers. -/
def dateAlt2 (l : List Char) : Option (List Char) :=
  let tryK : Nat → Option (List Char) := fun k =>
    if (l.takeWhile isDigitCh).length < k || k = 0 then none
    else
      match l.drop k with
      | s1 :: r2 =>
        if isDateSep s1 then
          (match dateAlt2Mid r2 2 with
           | some m => some m
           | none => dateAlt2Mid r2 1).map (fun m => l.take k ++ s1 :: m)
        else none
      | [] => none
  match tryK 2 with
  | some m => some m
  | none => tryK 1

/-- Launch-date match anchored at the start: the first alternative is
tried completely before the second. -/
def dateAtStart (l : List Char) : Option (List Char) :=
  match dateAlt1 l with
  | some m => some m
  | none => dateAlt2 l

/-- Leftmost search for the launch-date pattern, as in `re.search`. -/
def dateSearchData : List Char → Option (List Char)
  | [] => none
  | c :: cs =>
    match dateAtStart (c :: cs) with
    | some m => some m
    | none => dateSearchData cs

/-- The launch-date search on a line. -/
def dateSearch (line : String) : Option String :=
  (dateSearchData line.data).map (fun l => ⟨l⟩)

/-- Fund-name rule: an all-caps line announcing a FUND or SCHEME, stored
only while the field is unset. -/
def updFundName (line : String) (md : Metadata) : Metadata :=
  if md.fund_name = "N/A" && fundNameMatch line then { md with fund_name := line } else md

/-- AUM rule: a line mentioning AUM with a recognisable amount-and-unit,
stored only while the field is unset. -/
def updAum (line : String) (md : Metadata) : Metadata :=
  let low := lowerStr line
  if md.aum = "N/A" && (strContains low "aum" || strContains low "assets under management") then
    match aumSearch line with
    | some v => { md with aum := v }
    | none => md
  else md

/-- Benchmark rule: a line mentioning "benchmark" writes the text after
the first colon (or the whole line) into `additional_benchmark` when the
line also says "additional", else into `benchmark`; each destination only
while unset. -/
def updBenchmark (line : String) (md : Metadata) : Metadata :=
  let low := lowerStr line
  if strContains low "benchmark" then
    let name := afterColonOrSelf line
    if strContains low "additional" then
      if md.additional_benchmark = "N/A" then { md with additional_benchmark := name } else md
    else
      if md.benchmark = "N/A" then { md with benchmark := name } else md
  else md

/-- Fund-manager rule: a line mentioning "fund manager", stored only
while the field is unset. -/
def updManager (line : String) (md : Metadata) : Metadata :=
  let low := lowerStr line
  if strContains low "fund manager" && md.fund_manager = "N/A" then
    { md with fund_manager := afterColonOrSelf line }
  else md

/-- Launch-date rule: a line mentioning "launch" or "inception" with a
recognisable date, stored only while the field is unset. -/
def updLaunch (line : String) (md : Metadata) : Metadata :=
  let low := lowerStr line
  if (strContains low "launch" || strContains low "inception") && md.launch_date = "N/A" then
    match dateSearch line with
    | some v => { md with launch_date := v }
    | none => md
  else md

/-- One line of the metadata pass: skipped lines leave the record
untouched; otherwise the five rules are applied in source order (a line
may set more than one field). -/
def metaStep (md : Metadata) (line : String) : Metadata :=
  if skipLine (lowerStr line) then md
  else updLaunch line (updManager line (updBenchmark line (updAum line (updFundName line md))))

/-- Split a page text on newlines, modelling Python `text.split("\n")`. -/
def splitNl : List Char → List (List Char)
  | [] => [[]]
  | '\n' :: cs => [] :: splitNl cs
  | c :: cs =>
    match splitNl cs with
    | [] => [[c]]
    | l :: ls => (c :: l) :: ls

/-- The stripped non-blank lines of one page's text. -/
def pageLines (text : String) : List String :=
  (((splitNl text.data).map stripChars).filter (fun l => !l.isEmpty)).map (fun l => ⟨l⟩)

/-- The metadata extractor `extract_metadata`, as a pass over the ordered
page texts of the document. -/
def extract_metadata (pages : List String) : Metadata :=
  pages.foldl (fun md text => (pageLines text).foldl metaStep md) initMetadata

/-! Document assembler: `parse_pdf_to_json` of pdf_to_json.py, over the
per-page inputs delivered by the external extraction collaborators. -/

/-- One extracted image: an opaque path plus the optional OCR description
computed by the (external) OCR service when enabled. -/
structure ImageInput where
  image_path : String
  description : Option String
deriving DecidableEq

/-- The per-page input from the external extractors: the page text, the
cleaned raw tables, and the extracted images. -/
structure PageInput where
  text : String
  tables : List (List (List String))
  images : List ImageInput
deriving DecidableEq

/-- A record appended to a `sections[category]` list: page number, the raw
table, and the classification label (`section_name`, always present in
fact since it is only appended for classified tables). -/
structure SectionEntry where
  page : Nat
  table_data : List (List String)
  section_name : Option String
deriving DecidableEq

/-- One entry of a page's content list: a paragraph record, a table
record (label and raw data), or a chart record. -/
inductive ContentEntry where
  | paragraph (p : Paragraph)
  | table (sect : Option String) (table_data : List (List String))
  | chart (image : String) (description : Option String)
deriving DecidableEq

/-- One page of the assembled document. -/
structure PageEntry where
  page_number : Nat
  content : List ContentEntry
deriving DecidableEq

/-- The initial sections map, with its six fixed categories in dict
insertion order. -/
def initSections : List (String × List SectionEntry) :=
  [("portfolio", []), ("scheme_performance", []), ("allocation", []), ("risk", []),
   ("macro", []), ("debt_portfolio", [])]

/-- Python `result["sections"].setdefault(k, []).append(e)` on an
association list: append to the existing list of key k, or add a new
binding at the end. -/
def setdefaultAppend (m : List (String × List SectionEntry)) (k : String) (e : SectionEntry) :
    List (String × List SectionEntry) :=
  match m with
  | [] => [(k, [e])]
  | (k0, v) :: rest =>
    if k0 = k then (k0, v ++ [e]) :: rest else (k0, v) :: setdefaultAppend rest k e

/-- Per-page table loop: classify each table, append a section entry for
truthy categories, and always append a table entry to the page content. -/
def processTables (pageNo : Nat) (secs : List (String × List SectionEntry))
    (content : List ContentEntry) :
    List (List (List String)) → List (String × List SectionEntry) × List ContentEntry
  | [] => (secs, content)
  | tbl :: rest =>
    let sc := classify_table tbl
    let secs1 :=
      match sc.1 with
      | some cat =>
        if cat.data.isEmpty then secs else setdefaultAppend secs cat ⟨pageNo, tbl, sc.2⟩
      | none => secs
    processTables pageNo secs1 (content ++ [ContentEntry.table sc.2 tbl]) rest

/-- Page loop of the assembler: paragraphs, then table entries, then chart
entries, with 1-based page numbers. -/
def assemblePages (pageNo : Nat) (secs : List (String × List SectionEntry)) :
    List PageInput → List (String × List SectionEntry) × List PageEntry
  | [] => (secs, [])
  | p :: rest =>
    let content0 := (detect_sections_from_text p.text).map ContentEntry.paragraph
    let sc1 := processTables pageNo secs content0 p.tables
    let content2 :=
      sc1.2 ++ p.images.map (fun im => ContentEntry.chart im.image_path im.description)
    let sp := assemblePages (pageNo + 1) sc1.1 rest
    (sp.1, ⟨pageNo, content2⟩ :: sp.2)

/-- The assembled Structured Document. -/
structure StructuredDoc where
  metadata : Metadata
  sections : List (String × List SectionEntry)
  pages : List PageEntry
deriving DecidableEq

/-- The assembler `parse_pdf_to_json` (its pure core): metadata from the
page texts, the category map, and the per-page content streams. -/
def parse_pdf_to_json (pages : List PageInput) : StructuredDoc :=
  let sp := assemblePages 1 initSections pages
  ⟨extract_metadata (pages.map (fun p => p.text)), sp.1, sp.2⟩

/-- Lookup of a category in the sections association list (first match,
empty list when absent) — Python dict access on `result["sections"]`. -/
def lookupSec : List (String × List SectionEntry) → String → List SectionEntry
  | [], _ => []
  | (k, v) :: rest, q => if k = q then v else lookupSec rest q

/-- Spec-level description, for the amended C3: the section entries one
page's tables contribute to a given category — exactly one entry per
table classified into that category, in extraction order. -/
def pageCatEntries (pageNo : Nat) (tables : List (List (List String))) (cat : String) :
    List SectionEntry :=
  tables.filterMap (fun t =>
    match (classify_table t).1 with
    | some c =>
      if !c.data.isEmpty && c = cat then some ⟨pageNo, t, (classify_table t).2⟩ else none
    | none => none)

/-- Spec-level description, for the amended C3: one page's content list —
its paragraph records, then exactly one table entry per raw table in
extraction order, then its chart entries. -/
def specContent (p : PageInput) : List ContentEntry :=
  (detect_sections_from_text p.text).map ContentEntry.paragraph ++
  p.tables.map (fun t => ContentEntry.table (classify_table t).2 t) ++
  p.images.map (fun im => ContentEntry.chart im.image_path im.description)

/-- Spec-level description, for the amended C3: the page list with
1-based increasing page numbers. -/
def specPages (pageNo : Nat) : List PageInput → List PageEntry
  | [] => []
  | p :: rest => ⟨pageNo, specContent p⟩ :: specPages (pageNo + 1) rest

/-- Spec-level description, for the amended C3: all section entries of a
category across the document, in page order. -/
def specSections (pageNo : Nat) (cat : String) : List PageInput → List SectionEntry
  | [] => []
  | p :: rest => pageCatEntries pageNo p.tables cat ++ specSections (pageNo + 1) cat rest

/-! JSON values and the encoding of the Structured Document, modelling the
Python dict/list/str/int/None tree handed to `json.dump`. -/

/-- JSON value tree (the document contains no booleans or floats). -/
inductive Json where
  | null
  | str (s : String)
  | num (n : Nat)
  | arr (xs : List Json)
  | obj (kvs : List (String × Json))

/-- Encode an optional string, `None` becoming JSON null. -/
def optStrToJson : Option String → Json
  | none => Json.null
  | some s => Json.str s

/-- Encode a raw table as an array of arrays of strings. -/
def tableDataToJson (t : List (List String)) : Json :=
  Json.arr (t.map (fun row => Json.arr (row.map Json.str)))

/-- Encode a paragraph record, with the dict keys in the insertion order
of the code. -/
def paragraphToJson (p : Paragraph) : Json :=
  Json.obj [("type", Json.str "paragraph"), ("section", Json.str p.sect),
    ("sub_section", optStrToJson p.sub_section), ("text", Json.str p.text)]

/-- Encode one content entry in the exact dict shape the assembler
constructs for it. -/
def contentEntryToJson : ContentEntry → Json
  | ContentEntry.paragraph p => paragraphToJson p
  | ContentEntry.table sect t =>
    Json.obj [("type", Json.str "table"), ("section", optStrToJson sect),
      ("table_data", tableDataToJson t)]
  | ContentEntry.chart img descr =>
    Json.obj [("type", Json.str "chart"), ("image", Json.str img),
      ("description", optStrToJson descr)]

/-- Encode one sections-map entry in the exact dict shape the assembler
constructs for it. -/
def sectionEntryToJson (e : SectionEntry) : Json :=
  Json.obj [("page", Json.num e.page), ("table_data", tableDataToJson e.table_data),
    ("section_name", optStrToJson e.section_name)]

/-- Encode the metadata record, keys in dict insertion order. -/
def metadataToJson (md : Metadata) : Json :=
  Json.obj [("fund_name", Json.str md.fund_name), ("aum", Json.str md.aum),
    ("benchmark", Json.str md.benchmark),
    ("additional_benchmark", Json.str md.additional_benchmark),
    ("fund_manager", Json.str md.fund_manager), ("launch_date", Json.str md.launch_date)]

/-- Encode the sections map. -/
def sectionsToJson (m : List (String × List SectionEntry)) : Json :=
  Json.obj (m.map (fun kv => (kv.1, Json.arr (kv.2.map sectionEntryToJson))))

/-- Encode one page entry. -/
def pageEntryToJson (pe : PageEntry) : Json :=
  Json.obj [("page_number", Json.num pe.page_number),
    ("content", Json.arr (pe.content.map contentEntryToJson))]

/-- Encode the whole Structured Document, keys in dict insertion order. -/
def docToJson (d : StructuredDoc) : Json :=
  Json.obj [("metadata", metadataToJson d.metadata), ("sections", sectionsToJson d.sections),
    ("pages", Json.arr (d.pages.map pageEntryToJson))]

/-! Decoding of the persisted Structured Document.  Modelled from the
spec: the decode direction of the round-trip contract (§6: the persisted
form "must round-trip losslessly (encode→decode yields an equal
Structured Document)") is performed downstream by `json.load` plus the
field accesses of the consuming scripts; the repository has no single
named decoder function, so the decoders below follow the spec's field
layout (§3) exactly. -/

/-- Option-valued traversal of a list (explicit recursion, so that it
reduces in proofs). -/
def optMapM {α β : Type} (f : α → Option β) : List α → Option (List β)
  | [] => some []
  | a :: as =>
    match f a with
    | some b => (optMapM f as).map (fun bs => b :: bs)
    | none => none

/-- Lookup a key in a JSON object body (first match). -/
def jLookup : List (String × Json) → String → Option Json
  | [], _ => none
  | (k0, v) :: rest, k => if k0 = k then some v else jLookup rest k

/-- Decode a JSON string. -/
def decodeStr : Json → Option String
  | Json.str s => some s
  | _ => none

/-- Decode a nullable JSON string. -/
def decodeOptStr : Json → Option (Option String)
  | Json.null => some none
  | Json.str s => some (some s)
  | _ => none

/-- Decode a JSON number. -/
def decodeNum : Json → Option Nat
  | Json.num n => some n
  | _ => none

/-- Decode one table row. -/
def decodeRow : Json → Option (List String)
  | Json.arr xs => optMapM decodeStr xs
  | _ => none

/-- Decode a raw table. -/
def decodeTable : Json → Option (List (List String))
  | Json.arr xs => optMapM decodeRow xs
  | _ => none

/-- Decode one content entry, dispatching on its "type" field. -/
def decodeContentEntry (j : Json) : Option ContentEntry :=
  match j with
  | Json.obj kvs =>
    match jLookup kvs "type" with
    | some (Json.str "paragraph") =>
      match (jLookup kvs "section").bind decodeStr,
            (jLookup kvs "sub_section").bind decodeOptStr,
            (jLookup kvs "text").bind decodeStr with
      | some sec, some sub, some txt => some (ContentEntry.paragraph ⟨sec, sub, txt⟩)
      | _, _, _ => none
    | some (Json.str "table") =>
      match (jLookup kvs "section").bind decodeOptStr,
            (jLookup kvs "table_data").bind decodeTable with
      | some sec, some td => some (ContentEntry.table sec td)
      | _, _ => none
    | some (Json.str "chart") =>
      match (jLookup kvs "image").bind decodeStr,
            (jLookup kvs "description").bind decodeOptStr with
      | some img, some ds => some (ContentEntry.chart img ds)
      | _, _ => none
    | _ => none
  | _ => none

/-- Decode one sections-map entry. -/
def decodeSectionEntry (j : Json) : Option SectionEntry :=
  match j with
  | Json.obj kvs =>
    match (jLookup kvs "page").bind decodeNum,
          (jLookup kvs "table_data").bind decodeTable,
          (jLookup kvs "section_name").bind decodeOptStr with
    | some pg, some td, some sn => some ⟨pg, td, sn⟩
    | _, _, _ => none
  | _ => none

/-- Decode the metadata record. -/
def decodeMetadata (j : Json) : Option Metadata :=
  match j with
  | Json.obj kvs =>
    match (jLookup kvs "fund_name").bind decodeStr, (jLookup kvs "aum").bind decodeStr,
          (jLookup kvs "benchmark").bind decodeStr,
          (jLookup kvs "additional_benchmark").bind decodeStr,
          (jLookup kvs "fund_manager").bind decodeStr,
          (jLookup kvs "launch_date").bind decodeStr with
    | some a, some b, some c, some d, some e, some f => some ⟨a, b, c, d, e, f⟩
    | _, _, _, _, _, _ => none
  | _ => none

/-- Decode one category's list of section entries. -/
def decodeSecList : Json → Option (List SectionEntry)
  | Json.arr xs => optMapM decodeSectionEntry xs
  | _ => none

/-- Decode the sections map, preserving the category order. -/
def decodeSections : Json → Option (List (String × List SectionEntry))
  | Json.obj kvs => optMapM (fun kv => (decodeSecList kv.2).map (fun l => (kv.1, l))) kvs
  | _ => none

/-- Decode one page entry. -/
def decodePageEntry (j : Json) : Option PageEntry :=
  match j with
  | Json.obj kvs =>
    match (jLookup kvs "page_number").bind decodeNum with
    | some n =>
      match jLookup kvs "content" with
      | some (Json.arr cs) => (optMapM decodeContentEntry cs).map (fun ce => ⟨n, ce⟩)
      | _ => none
    | none => none
  | _ => none

/-- Decode the whole Structured Document from its JSON value. -/
def decodeDocJson (j : Json) : Option StructuredDoc :=
  match j with
  | Json.obj kvs =>
    match (jLookup kvs "metadata").bind decodeMetadata,
          (jLookup kvs "sections").bind decodeSections with
    | some md, some secs =>
      match jLookup kvs "pages" with
      | some (Json.arr ps) => (optMapM decodePageEntry ps).map (fun pes => ⟨md, secs, pes⟩)
      | _ => none
    | _, _ => none
  | _ => none

/-! Text serialization of JSON values, modelling `json.dump` (compact
separators; strings escaped as the json module does: quote, backslash and
the five short control escapes, other control characters as \u00XX,
everything else emitted raw since `ensure_ascii=False`). -/

/-- Lower-case hexadecimal digit character. -/
def hexDigitChar : Nat → Char
  | 0 => '0' | 1 => '1' | 2 => '2' | 3 => '3' | 4 => '4' | 5 => '5' | 6 => '6' | 7 => '7'
  | 8 => '8' | 9 => '9' | 10 => 'a' | 11 => 'b' | 12 => 'c' | 13 => 'd' | 14 => 'e' | _ => 'f'

/-- JSON escape of a single character. -/
def escapeChar (c : Char) : List Char :=
  if c = '"' then ['\\', '"']
  else if c = '\\' then ['\\', '\\']
  else if c = '\n' then ['\\', 'n']
  else if c = '\t' then ['\\', 't']
  else if c = '\x0d' then ['\\', 'r']
  else if c = '\x08' then ['\\', 'b']
  else if c = '\x0c' then ['\\', 'f']
  else if c.toNat < 32 then
    ['\\', 'u', '0', '0', hexDigitChar (c.toNat / 16), hexDigitChar (c.toNat % 16)]
  else [c]

/-- JSON escape of a character list. -/
def escList : List Char → List Char
  | [] => []
  | c :: cs => escapeChar c ++ escList cs

/-- Serialized JSON string, quotes included. -/
def serStr (s : String) : List Char := '"' :: (escList s.data ++ ['"'])

/-- Decimal digit character. -/
def digitToChar : Nat → Char
  | 0 => '0' | 1 => '1' | 2 => '2' | 3 => '3' | 4 => '4'
  | 5 => '5' | 6 => '6' | 7 => '7' | 8 => '8' | _ => '9'

/-- Serialized decimal numeral. -/
def serNat (n : Nat) : List Char :=
  if n = 0 then ['0'] else (Nat.digits 10 n).reverse.map digitToChar

mutual

/-- Serialize a JSON value. -/
def serVal : Json → List Char
  | Json.null => ['n', 'u', 'l', 'l']
  | Json.str s => serStr s
  | Json.num n => serNat n
  | Json.arr xs => '[' :: serElems xs
  | Json.obj kvs => '{' :: serMembers kvs

/-- Serialize array elements including the closing bracket. -/
def serElems : List Json → List Char
  | [] => [']']
  | [x] => serVal x ++ [']']
  | x :: xs => serVal x ++ (',' :: serElems xs)

/-- Serialize object members including the closing brace. -/
def serMembers : List (String × Json) → List Char
  | [] => ['}']
  | [(k, v)] => serStr k ++ (':' :: serVal v) ++ ['}']
  | (k, v) :: kvs => serStr k ++ (':' :: serVal v) ++ (',' :: serMembers kvs)

end

/-! Parsing of the persisted text, modelling `json.loads` on the fragment
the serializer emits (a fuel argument makes the nested recursion
structural; the fuel needed is bounded by the nesting size of the value). -/

/-- Decimal digit of a character, if any (code points 48-57). -/
def charToDigit? (c : Char) : Option Nat :=
  if 48 ≤ c.toNat ∧ c.toNat ≤ 57 then some (c.toNat - 48) else none

/-- Is the character a decimal digit? -/
def isDigitTok (c : Char) : Bool := (charToDigit? c).isSome

/-- Hexadecimal digit of a character, if any (0-9, a-f or A-F). -/
def hexToDigit? (c : Char) : Option Nat :=
  if 48 ≤ c.toNat ∧ c.toNat ≤ 57 then some (c.toNat - 48)
  else if 97 ≤ c.toNat ∧ c.toNat ≤ 102 then some (c.toNat - 87)
  else if 65 ≤ c.toNat ∧ c.toNat ≤ 70 then some (c.toNat - 55)
  else none

/-- Continuation of a parsed `n` introducing the literal `null`. -/
def nullCont : List Char → Option (Json × List Char)
  | 'u' :: 'l' :: 'l' :: r => some (Json.null, r)
  | _ => none

/-- Parse a decimal numeral token. -/
def parseNatTok (cs : List Char) : Option (Nat × List Char) :=
  let ds := cs.takeWhile isDigitTok
  if ds.isEmpty then none
  else some (ds.foldl (fun acc c => acc * 10 + ((charToDigit? c).getD 0)) 0, cs.drop ds.length)

/-- Decode one escape sequence (after the backslash), returning the
decoded character and the remainder. -/
def hEsc : List Char → Option (Char × List Char)
  | 'n' :: r => some ('\n', r)
  | 't' :: r => some ('\t', r)
  | 'r' :: r => some ('\x0d', r)
  | 'b' :: r => some ('\x08', r)
  | 'f' :: r => some ('\x0c', r)
  | '"' :: r => some ('"', r)
  | '\\' :: r => some ('\\', r)
  | '/' :: r => some ('/', r)
  | 'u' :: h1 :: h2 :: h3 :: h4 :: r =>
    match hexToDigit? h1, hexToDigit? h2, hexToDigit? h3, hexToDigit? h4 with
    | some a, some b, some c, some d =>
      some (Char.ofNat (((a * 16 + b) * 16 + c) * 16 + d), r)
    | _, _, _, _ => none
  | _ => none

/-- Parse a JSON string body (after the opening quote), returning the
unescaped characters and the remainder after the closing quote; the fuel
(one unit per produced character) makes the recursion structural. -/
def parseStrBody : Nat → List Char → Option (List Char × List Char)
  | 0, _ => none
  | fuel + 1, cs =>
    match cs with
    | [] => none
    | c :: rest =>
      if c = '"' then some ([], rest)
      else if c = '\\' then
        match hEsc rest with
        | some p => (parseStrBody fuel p.2).map (fun q => (p.1 :: q.1, q.2))
        | none => none
      else if c.toNat < 32 then none
      else (parseStrBody fuel rest).map (fun p => (c :: p.1, p.2))

mutual

/-- Parse a JSON value (fuel-indexed). -/
def parseVal : Nat → List Char → Option (Json × List Char)
  | 0, _ => none
  | fuel + 1, cs =>
    match cs with
    | [] => none
    | c :: rest =>
      if isDigitTok c then
        (parseNatTok cs).map (fun p => (Json.num p.1, p.2))
      else if c = 'n' then nullCont rest
      else if c = '"' then
        (parseStrBody (rest.length + 1) rest).map (fun p => (Json.str ⟨p.1⟩, p.2))
      else if c = '[' then
        (parseElems fuel rest).map (fun p => (Json.arr p.1, p.2))
      else if c = '{' then
        (parseMembers fuel rest).map (fun p => (Json.obj p.1, p.2))
      else none

/-- Parse array elements up to and including the closing bracket. -/
def parseElems : Nat → List Char → Option (List Json × List Char)
  | 0, _ => none
  | fuel + 1, cs =>
    match cs with
    | [] => none
    | c :: _ =>
      if c = ']' then some ([], cs.tail)
      else (parseVal fuel cs).bind (fun jr => elemsCont fuel jr.1 jr.2)

/-- Continue an element list after one parsed element: a comma continues,
a closing bracket ends. -/
def elemsCont (fuel : Nat) (j : Json) : List Char → Option (List Json × List Char)
  | ',' :: r2 => (parseElems fuel r2).map (fun p => (j :: p.1, p.2))
  | ']' :: r2 => some ([j], r2)
  | _ => none

/-- Parse object members up to and including the closing brace. -/
def parseMembers : Nat → List Char → Option (List (String × Json) × List Char)
  | 0, _ => none
  | fuel + 1, cs =>
    match cs with
    | [] => none
    | c :: rest =>
      if c = '}' then some ([], rest)
      else if c = '"' then
        (parseStrBody (rest.length + 1) rest).bind (fun kr => membersKey fuel ⟨kr.1⟩ kr.2)
      else none

/-- Continue an object member after its key: a colon then the value. -/
def membersKey (fuel : Nat) (k : String) : List Char → Option (List (String × Json) × List Char)
  | ':' :: r2 => (parseVal fuel r2).bind (fun vr => membersVal fuel k vr.1 vr.2)
  | _ => none

/-- Continue an object after one member: a comma continues, a closing
brace ends. -/
def membersVal (fuel : Nat) (k : String) (v : Json) :
    List Char → Option (List (String × Json) × List Char)
  | ',' :: r4 => (parseMembers fuel r4).map (fun p => ((k, v) :: p.1, p.2))
  | '}' :: r4 => some ([(k, v)], r4)
  | _ => none

end

mutual

/-- Parser fuel needed for a JSON value (its nesting size). -/
def jsizeV : Json → Nat
  | Json.null => 1
  | Json.str _ => 1
  | Json.num _ => 1
  | Json.arr xs => jsizeL xs + 1
  | Json.obj kvs => jsizeM kvs + 1

/-- Parser fuel needed for an element list. -/
def jsizeL : List Json → Nat
  | [] => 1
  | x :: xs => max (jsizeV x) (jsizeL xs) + 1

/-- Parser fuel needed for a member list. -/
def jsizeM : List (String × Json) → Nat
  | [] => 1
  | (_, v) :: kvs => max (jsizeV v) (jsizeM kvs) + 1

end

/-- Is the head of the remainder a non-digit (so that a numeral token
cannot run into it)? -/
def headNonDigit : List Char → Bool
  | [] => true
  | c :: _ => !isDigitTok c

/-- Encode the Structured Document to the persisted text form. -/
def encodeDoc (d : StructuredDoc) : String := ⟨serVal (docToJson d)⟩

/-- Decode the persisted text back to a JSON value; the fuel is bounded by
the input length. -/
def decodeJson (s : String) : Option Json :=
  match parseVal (s.data.length + 1) s.data with
  | some (j, []) => some j
  | _ => none

/-- Decode the persisted text back to a Structured Document. -/
def decodeDoc (s : String) : Option StructuredDoc :=
  (decodeJson s).bind decodeDocJson

/-! Claims about the classifier. -/

/-- C5: classify_table is deterministic and depends only on the header row,
case-insensitively: two non-empty tables whose header rows agree after
cell-wise lower-casing classify identically, whatever their other rows. -/
theorem classify_table_header_only (h1 h2 : List String) (r1 r2 : List (List String))
    (hlow : h1.map lowerStr = h2.map lowerStr) :
    classify_table (h1 :: r1) = classify_table (h2 :: r2) := by
  show classifyHeader (headerStr h1) = classifyHeader (headerStr h2)
  unfold headerStr
  have hdata : List.map (fun s => (lowerStr s).data) h1 =
      List.map (fun s => (lowerStr s).data) h2 := by
    have : (fun s => (lowerStr s).data) = String.data ∘ lowerStr := rfl
    rw [this, ← List.map_map, hlow, List.map_map]
  rw [hdata]

/-- Witness for C5 at a concrete pair of tables differing in case and in
their non-header rows. -/
theorem classify_table_header_only_witness :
    classify_table [["Company", "% to Net Assets"], ["Infosys", "9.1"]] =
      classify_table [["COMPANY", "% TO NET ASSETS"]] :=
  classify_table_header_only _ _ _ _ (by decide)

/-- C6: the three scenario headers classify as stated regardless of the
non-header rows, and every empty table is unclassified immediately. -/
theorem classify_table_scenarios :
    (∀ rows, classify_table (["Company", "% to Net Assets"] :: rows) =
      (some "portfolio", some "Holdings")) ∧
    (∀ rows, classify_table (["Scheme", "Last 1 Year", "Since Inception"] :: rows) =
      (some "scheme_performance", some "Performance Data")) ∧
    (∀ rows, classify_table (["Sr", "Unrelated", "Stuff"] :: rows) = (none, none)) ∧
    classify_table [] = (none, none) := by
  refine ⟨fun rows => ?_, fun rows => ?_, fun rows => ?_, rfl⟩
  · show classifyHeader (headerStr ["Company", "% to Net Assets"]) = _
    decide
  · show classifyHeader (headerStr ["Scheme", "Last 1 Year", "Since Inception"]) = _
    decide
  · show classifyHeader (headerStr ["Sr", "Unrelated", "Stuff"]) = _
    decide

/-- Helper: the image of classifyHeader is the unclassified pair or one of
the seven fixed classified pairs. -/
theorem classifyHeader_range (h : String) :
    classifyHeader h = (none, none) ∨
      classifyHeader h ∈ [((some "scheme_performance" : Option String), (some "Performance Data" : Option String)),
        (some "scheme_performance", some "SIP Performance"),
        (some "portfolio", some "Holdings"),
        (some "debt_portfolio", some "Debt Holdings"),
        (some "allocation", some "Allocation Data"),
        (some "risk", some "Risk Metrics"),
        (some "macro", some "Economic Indicators")] := by
  unfold classifyHeader
  split
  · right; simp
  · split
    · right; simp
    · split
      · split
        · right; simp
        · right; simp
      · split
        · right; simp
        · split
          · right; simp
          · split
            · right; simp
            · left; rfl

/-- C10: the classifier's image is the unclassified pair together with
exactly seven fixed classified pairs, and the category is null exactly
when the label is. -/
theorem classify_table_range (t : List (List String)) :
    (classify_table t = (none, none) ∨
      classify_table t ∈ [((some "scheme_performance" : Option String), (some "Performance Data" : Option String)),
        (some "scheme_performance", some "SIP Performance"),
        (some "portfolio", some "Holdings"),
        (some "debt_portfolio", some "Debt Holdings"),
        (some "allocation", some "Allocation Data"),
        (some "risk", some "Risk Metrics"),
        (some "macro", some "Economic Indicators")]) ∧
    ((classify_table t).1 = none ↔ (classify_table t).2 = none) := by
  have hrange : classify_table t = (none, none) ∨
      classify_table t ∈ [((some "scheme_performance" : Option String), (some "Performance Data" : Option String)),
        (some "scheme_performance", some "SIP Performance"),
        (some "portfolio", some "Holdings"),
        (some "debt_portfolio", some "Debt Holdings"),
        (some "allocation", some "Allocation Data"),
        (some "risk", some "Risk Metrics"),
        (some "macro", some "Economic Indicators")] := by
    match t with
    | [] => exact Or.inl rfl
    | row0 :: rest => exact classifyHeader_range (headerStr row0)
  refine ⟨hrange, ?_⟩
  rcases hrange with h | h
  · rw [h]
  · simp only [List.mem_cons, List.mem_singleton, List.not_mem_nil] at h
    rcases h with h | h | h | h | h | h | h | h <;>
      first
      | (rw [h]; simp)
      | exact h.elim

/-- C2 counterexample: a non-empty table whose header contains both
"risk" and "allocation" but classifies as portfolio (rule 3 fires on
"sector" before rule 4 is reached), refuting the claim that every such
table classifies as allocation. -/
theorem risk_allocation_counterexample :
    strContains (headerStr ["Sector", "Risk", "Allocation"]) "risk" = true ∧
    strContains (headerStr ["Sector", "Risk", "Allocation"]) "allocation" = true ∧
    classify_table [["Sector", "Risk", "Allocation"]] = (some "portfolio", some "Holdings") := by
  refine ⟨by decide, by decide, by decide⟩

/-- C2 amended: a header containing both "risk" and "allocation" never
classifies as risk, and classifies as allocation (rule 4) provided none
of the earlier rules 1-3 matches. -/
theorem risk_allocation_amended (row0 : List String) (rows : List (List String))
    (_hrisk : strContains (headerStr row0) "risk" = true)
    (hall : strContains (headerStr row0) "allocation" = true) :
    (classify_table (row0 :: rows)).1 ≠ some "risk" ∧
    ((rule1 (headerStr row0) || rule2 (headerStr row0) || rule3 (headerStr row0)) = false →
      classify_table (row0 :: rows) = (some "allocation", some "Allocation Data")) := by
  have hr4 : rule4 (headerStr row0) = true := by
    unfold rule4
    simp only [List.any_cons, List.any_nil, Bool.or_eq_true]
    exact Or.inr (Or.inr (Or.inr (Or.inl hall)))
  have hshow : classify_table (row0 :: rows) = classifyHeader (headerStr row0) := rfl
  constructor
  · rw [hshow]
    unfold classifyHeader
    cases hb1 : rule1 (headerStr row0) <;> cases hb2 : rule2 (headerStr row0) <;>
      cases hb3 : rule3 (headerStr row0) <;> cases hb3d : rule3debt (headerStr row0) <;>
      simp [hb1, hb2, hb3, hb3d, hr4]
  · intro hno
    have h1 : rule1 (headerStr row0) = false := by
      cases hb : rule1 (headerStr row0) <;> simp_all
    have h2 : rule2 (headerStr row0) = false := by
      cases hb : rule2 (headerStr row0) <;> simp_all
    have h3 : rule3 (headerStr row0) = false := by
      cases hb : rule3 (headerStr row0) <;> simp_all
    rw [hshow]
    unfold classifyHeader
    rw [h1, h2, h3, hr4]
    simp

/-- Witness for the amended C2 at a concrete header containing both
tokens and triggering none of rules 1-3. -/
theorem risk_allocation_amended_witness :
    (classify_table [["Risk Allocation"]]).1 ≠ some "risk" ∧
    classify_table [["Risk Allocation"]] = (some "allocation", some "Allocation Data") :=
  ⟨(risk_allocation_amended ["Risk Allocation"] [] (by decide) (by decide)).1,
   (risk_allocation_amended ["Risk Allocation"] [] (by decide) (by decide)).2 (by decide)⟩

/-! Claims about the text segmenter. -/

/-- C7: the four-line scenario input yields exactly the two stated
paragraph records in order. -/
theorem segmentation_scenario :
    detect_sections_from_text "SUMMARY\nAlpha line\nBenchmark: X\nBeta line" =
      [⟨"SUMMARY", none, "Alpha line"⟩, ⟨"SUMMARY", some "Benchmark: X", "Beta line"⟩] := by
  decide

/-- C1 counterexample: the line "hello" occurs before the first heading
line of the input yet appears in the emitted paragraph record, because
the pending buffer is not cleared when the first heading arrives (the
reset happens only inside the flush branch, which is skipped while
`current_section` is null). -/
theorem discard_before_heading_counterexample :
    detect_sections_from_text "hello\nHEADING\nworld" = [⟨"HEADING", none, "hello world"⟩] ∧
    (detect_sections_from_text "hello\nHEADING\nworld").all
      (fun p => strContains p.text "hello") = true := by
  decide

/-- Helper: while no processed line is a main heading, the loop never
sets the current section and never emits a record. -/
theorem foldl_segStep_no_heading (lines : List String) (st : SegState)
    (hsec : st.current_section = none)
    (h : ∀ l ∈ lines, isMainHeading (pyStrip l) = false) :
    (lines.foldl segStep st).current_section = none ∧
      (lines.foldl segStep st).result = st.result := by
  induction lines generalizing st with
  | nil => exact ⟨hsec, rfl⟩
  | cons l ls ih =>
    have hl : isMainHeading (pyStrip l) = false := h l (List.mem_cons_self l ls)
    have hstep : (segStep st l).current_section = none ∧ (segStep st l).result = st.result := by
      unfold segStep
      simp only [hl]
      split
      · exact ⟨hsec, rfl⟩
      · simp only [Bool.false_eq_true, if_false]
        split
        · unfold flushPar
          rw [hsec]
          exact ⟨hsec, rfl⟩
        · exact ⟨hsec, rfl⟩
    have := ih (segStep st l) hstep.1 (fun x hx => h x (List.mem_cons_of_mem l hx))
    simp only [List.foldl_cons]
    exact ⟨this.1, this.2.trans hstep.2⟩

/-- C1 amended: an input none of whose right-stripped lines is a main
heading produces zero paragraph records; pre-heading lines, however, are
not discarded but stay in the buffer and are emitted in the first record
flushed under the first heading (see the counterexample). -/
theorem detect_sections_no_heading (text : String)
    (h : ∀ l ∈ (pySplitlines text).map pyRstrip, isMainHeading (pyStrip l) = false) :
    detect_sections_from_text text = [] := by
  unfold detect_sections_from_text
  split
  · rfl
  · have := foldl_segStep_no_heading ((pySplitlines text).map pyRstrip)
      ⟨none, none, [], []⟩ rfl h
    unfold flushPar
    rw [this.1]
    exact this.2

/-- Witness for the amended C1 at the spec's example input with no
heading line. -/
theorem detect_sections_no_heading_witness :
    detect_sections_from_text "hello\nworld" = [] :=
  detect_sections_no_heading "hello\nworld" (by decide)

/-! Claims about the metadata extractor. -/

/-- Helper: the fund-name rule never writes a set field and touches no
other field. -/
theorem updFundName_spec (line : String) (md : Metadata) :
    (md.fund_name ≠ "N/A" → updFundName line md = md) ∧
    (updFundName line md).aum = md.aum ∧
    (updFundName line md).benchmark = md.benchmark ∧
    (updFundName line md).additional_benchmark = md.additional_benchmark ∧
    (updFundName line md).fund_manager = md.fund_manager ∧
    (updFundName line md).launch_date = md.launch_date := by
  unfold updFundName
  split <;> simp_all

/-- Helper: the AUM rule never writes a set field and touches no other
field. -/
theorem updAum_spec (line : String) (md : Metadata) :
    (md.aum ≠ "N/A" → updAum line md = md) ∧
    (updAum line md).fund_name = md.fund_name ∧
    (updAum line md).benchmark = md.benchmark ∧
    (updAum line md).additional_benchmark = md.additional_benchmark ∧
    (updAum line md).fund_manager = md.fund_manager ∧
    (updAum line md).launch_date = md.launch_date := by
  unfold updAum
  dsimp only
  split_ifs with hc
  · cases haum : aumSearch line <;> simp_all
  · simp_all

/-- Helper: the benchmark rule never overwrites a set benchmark field and
touches no field other than the two benchmark fields. -/
theorem updBenchmark_spec (line : String) (md : Metadata) :
    (md.benchmark ≠ "N/A" → (updBenchmark line md).benchmark = md.benchmark) ∧
    (md.additional_benchmark ≠ "N/A" →
      (updBenchmark line md).additional_benchmark = md.additional_benchmark) ∧
    (updBenchmark line md).fund_name = md.fund_name ∧
    (updBenchmark line md).aum = md.aum ∧
    (updBenchmark line md).fund_manager = md.fund_manager ∧
    (updBenchmark line md).launch_date = md.launch_date := by
  unfold updBenchmark
  dsimp only
  split_ifs <;> simp_all

/-- Helper: the fund-manager rule never writes a set field and touches no
other field. -/
theorem updManager_spec (line : String) (md : Metadata) :
    (md.fund_manager ≠ "N/A" → updManager line md = md) ∧
    (updManager line md).fund_name = md.fund_name ∧
    (updManager line md).aum = md.aum ∧
    (updManager line md).benchmark = md.benchmark ∧
    (updManager line md).additional_benchmark = md.additional_benchmark ∧
    (updManager line md).launch_date = md.launch_date := by
  unfold updManager
  dsimp only
  split <;> simp_all

/-- Helper: the launch-date rule never writes a set field and touches no
other field. -/
theorem updLaunch_spec (line : String) (md : Metadata) :
    (md.launch_date ≠ "N/A" → updLaunch line md = md) ∧
    (updLaunch line md).fund_name = md.fund_name ∧
    (updLaunch line md).aum = md.aum ∧
    (updLaunch line md).benchmark = md.benchmark ∧
    (updLaunch line md).additional_benchmark = md.additional_benchmark ∧
    (updLaunch line md).fund_manager = md.fund_manager := by
  unfold updLaunch
  dsimp only
  split_ifs with hc
  · cases hd : dateSearch line <;> simp_all
  · simp_all

/-- Helper: one metadata step never changes any field already holding a
non-sentinel value. -/
theorem metaStep_preserves (md : Metadata) (line : String) :
    (md.fund_name ≠ "N/A" → (metaStep md line).fund_name = md.fund_name) ∧
    (md.aum ≠ "N/A" → (metaStep md line).aum = md.aum) ∧
    (md.benchmark ≠ "N/A" → (metaStep md line).benchmark = md.benchmark) ∧
    (md.additional_benchmark ≠ "N/A" →
      (metaStep md line).additional_benchmark = md.additional_benchmark) ∧
    (md.fund_manager ≠ "N/A" → (metaStep md line).fund_manager = md.fund_manager) ∧
    (md.launch_date ≠ "N/A" → (metaStep md line).launch_date = md.launch_date) := by
  unfold metaStep
  split
  · simp
  · refine ⟨?_, ?_, ?_, ?_, ?_, ?_⟩
    · intro h
      rw [(updFundName_spec line md).1 h]
      rw [(updLaunch_spec line _).2.1, (updManager_spec line _).2.1,
        (updBenchmark_spec line _).2.2.1, (updAum_spec line _).2.1]
    · intro h
      have h1 : (updFundName line md).aum = md.aum := (updFundName_spec line md).2.1
      have e2 : updAum line (updFundName line md) = updFundName line md :=
        (updAum_spec line _).1 (by rw [h1]; exact h)
      rw [(updLaunch_spec line _).2.2.1, (updManager_spec line _).2.2.1,
        (updBenchmark_spec line _).2.2.2.1, e2, h1]
    · intro h
      have h1 : (updFundName line md).benchmark = md.benchmark :=
        (updFundName_spec line md).2.2.1
      have h2 : (updAum line (updFundName line md)).benchmark = md.benchmark := by
        rw [(updAum_spec line _).2.2.1, h1]
      have h3 : (updBenchmark line (updAum line (updFundName line md))).benchmark =
          md.benchmark := by
        rw [(updBenchmark_spec line _).1 (by rw [h2]; exact h), h2]
      rw [(updLaunch_spec line _).2.2.2.1, (updManager_spec line _).2.2.2.1]
      exact h3
    · intro h
      have h1 : (updFundName line md).additional_benchmark = md.additional_benchmark :=
        (updFundName_spec line md).2.2.2.1
      have h2 : (updAum line (updFundName line md)).additional_benchmark =
          md.additional_benchmark := by
        rw [(updAum_spec line _).2.2.2.1, h1]
      have h3 : (updBenchmark line (updAum line (updFundName line md))).additional_benchmark =
          md.additional_benchmark := by
        rw [(updBenchmark_spec line _).2.1 (by rw [h2]; exact h), h2]
      rw [(updLaunch_spec line _).2.2.2.2.1, (updManager_spec line _).2.2.2.2.1]
      exact h3
    · intro h
      have h1 : (updFundName line md).fund_manager = md.fund_manager :=
        (updFundName_spec line md).2.2.2.2.1
      have h2 : (updAum line (updFundName line md)).fund_manager = md.fund_manager := by
        rw [(updAum_spec line _).2.2.2.2.1, h1]
      have h3 : (updBenchmark line (updAum line (updFundName line md))).fund_manager =
          md.fund_manager := by
        rw [(updBenchmark_spec line _).2.2.2.2.1, h2]
      have e4 : updManager line (updBenchmark line (updAum line (updFundName line md))) =
          updBenchmark line (updAum line (updFundName line md)) :=
        (updManager_spec line _).1 (by rw [h3]; exact h)
      rw [(updLaunch_spec line _).2.2.2.2.2, e4]
      exact h3
    · intro h
      have h1 : (updFundName line md).launch_date = md.launch_date :=
        (updFundName_spec line md).2.2.2.2.2
      have h2 : (updAum line (updFundName line md)).launch_date = md.launch_date := by
        rw [(updAum_spec line _).2.2.2.2.2, h1]
      have h3 : (updBenchmark line (updAum line (updFundName line md))).launch_date =
          md.launch_date := by
        rw [(updBenchmark_spec line _).2.2.2.2.2, h2]
      have h4 : (updManager line (updBenchmark line (updAum line
          (updFundName line md)))).launch_date = md.launch_date := by
        rw [(updManager_spec line _).2.2.2.2.2, h3]
      rw [(updLaunch_spec line _).1 (by rw [h4]; exact h)]
      exact h4

/-- Helper: a non-sentinel field observation is preserved by a fold of
metadata steps over any list of lines. -/
theorem foldl_metaStep_preserves (g : Metadata → String)
    (hg : ∀ md line, g md ≠ "N/A" → g (metaStep md line) = g md)
    (lines : List String) :
    ∀ md : Metadata, g md ≠ "N/A" → g (lines.foldl metaStep md) = g md := by
  induction lines with
  | nil => intro md _; rfl
  | cons l ls ih =>
    intro md h
    have hstep : g (metaStep md l) = g md := hg md l h
    simp only [List.foldl_cons]
    rw [ih (metaStep md l) (by rw [hstep]; exact h), hstep]

/-- Helper: a non-sentinel field observation is preserved by the page-level
fold of the metadata pass. -/
theorem foldl_pages_preserves (g : Metadata → String)
    (hg : ∀ md line, g md ≠ "N/A" → g (metaStep md line) = g md)
    (pages : List String) :
    ∀ md : Metadata, g md ≠ "N/A" →
      g (pages.foldl (fun m text => (pageLines text).foldl metaStep m) md) = g md := by
  induction pages with
  | nil => intro md _; rfl
  | cons p ps ih =>
    intro md h
    have hpage : g ((pageLines p).foldl metaStep md) = g md :=
      foldl_metaStep_preserves g hg (pageLines p) md h
    simp only [List.foldl_cons]
    rw [ih _ (by rw [hpage]; exact h), hpage]

/-- C4 counterexample: the line "Benchmark: N/A" matches the benchmark
rule first and stores the sentinel itself, so a later matching line
"Benchmark: Nifty 50 TRI" still changes the field — the first matching
line does not determine the final value and a later matching line does
not leave the field unchanged. -/
theorem metadata_write_once_counterexample :
    strContains (lowerStr "Benchmark: N/A") "benchmark" = true ∧
    (metaStep initMetadata "Benchmark: N/A").benchmark = "N/A" ∧
    strContains (lowerStr "Benchmark: Nifty 50 TRI") "benchmark" = true ∧
    (metaStep (metaStep initMetadata "Benchmark: N/A") "Benchmark: Nifty 50 TRI").benchmark =
      "Nifty 50 TRI" ∧
    (extract_metadata ["Benchmark: N/A\nBenchmark: Nifty 50 TRI"]).benchmark =
      "Nifty 50 TRI" := by
  refine ⟨by decide, by decide, by decide, by decide, by decide⟩

/-- C4 amended: each metadata field is write-once up to the sentinel —
once it holds a value other than "N/A", no later line of the pass can
change it; a matching line whose captured value is itself "N/A" leaves
the field unset, so a later matching line may still fill it. -/
theorem metadata_no_regress (md : Metadata) (pages : List String) :
    (md.fund_name ≠ "N/A" →
      (pages.foldl (fun m text => (pageLines text).foldl metaStep m) md).fund_name =
        md.fund_name) ∧
    (md.aum ≠ "N/A" →
      (pages.foldl (fun m text => (pageLines text).foldl metaStep m) md).aum = md.aum) ∧
    (md.benchmark ≠ "N/A" →
      (pages.foldl (fun m text => (pageLines text).foldl metaStep m) md).benchmark =
        md.benchmark) ∧
    (md.additional_benchmark ≠ "N/A" →
      (pages.foldl (fun m text => (pageLines text).foldl metaStep m) md).additional_benchmark =
        md.additional_benchmark) ∧
    (md.fund_manager ≠ "N/A" →
      (pages.foldl (fun m text => (pageLines text).foldl metaStep m) md).fund_manager =
        md.fund_manager) ∧
    (md.launch_date ≠ "N/A" →
      (pages.foldl (fun m text => (pageLines text).foldl metaStep m) md).launch_date =
        md.launch_date) :=
  ⟨foldl_pages_preserves (fun m => m.fund_name)
      (fun md line h => (metaStep_preserves md line).1 h) pages md,
   foldl_pages_preserves (fun m => m.aum)
      (fun md line h => (metaStep_preserves md line).2.1 h) pages md,
   foldl_pages_preserves (fun m => m.benchmark)
      (fun md line h => (metaStep_preserves md line).2.2.1 h) pages md,
   foldl_pages_preserves (fun m => m.additional_benchmark)
      (fun md line h => (metaStep_preserves md line).2.2.2.1 h) pages md,
   foldl_pages_preserves (fun m => m.fund_manager)
      (fun md line h => (metaStep_preserves md line).2.2.2.2.1 h) pages md,
   foldl_pages_preserves (fun m => m.launch_date)
      (fun md line h => (metaStep_preserves md line).2.2.2.2.2 h) pages md⟩

/-- Witness for the amended C4: a benchmark captured on one page survives
a later page that matches the benchmark rule again. -/
theorem metadata_no_regress_witness :
    ((["Benchmark: Something Else"] : List String).foldl
        (fun m text => (pageLines text).foldl metaStep m)
        (metaStep initMetadata "Benchmark: Nifty 50 TRI")).benchmark =
      (metaStep initMetadata "Benchmark: Nifty 50 TRI").benchmark :=
  (metadata_no_regress (metaStep initMetadata "Benchmark: Nifty 50 TRI")
      ["Benchmark: Something Else"]).2.2.1 (by decide)

/-- C8: a line containing "disclaimer", "page |" or "mutual fund:"
(case-insensitively) is skipped entirely: the metadata step leaves the
whole record unchanged, whatever its current state. -/
theorem metadata_skip_lines (md : Metadata) (line : String)
    (h : strContains (lowerStr line) "disclaimer" = true ∨
      strContains (lowerStr line) "page |" = true ∨
      strContains (lowerStr line) "mutual fund:" = true) :
    metaStep md line = md := by
  unfold metaStep
  have hs : skipLine (lowerStr line) = true := by
    unfold skipLine
    rcases h with h | h | h <;> simp [h]
  rw [hs]
  simp

/-- Witness for C8: an all-caps line ending in FUND that also contains
"mutual fund:" matches the fund-name regex yet sets no field. -/
theorem metadata_skip_lines_witness :
    strContains (lowerStr "SBI MUTUAL FUND: EQUITY") "mutual fund:" = true ∧
    fundNameMatch "SBI MUTUAL FUND: EQUITY" = true ∧
    metaStep initMetadata "SBI MUTUAL FUND: EQUITY" = initMetadata :=
  ⟨by decide, by decide,
   metadata_skip_lines initMetadata "SBI MUTUAL FUND: EQUITY" (Or.inr (Or.inr (by decide)))⟩

/-! Claims about the document assembler. -/

/-- Helper: looking a category up after a setdefault-append sees the new
entry exactly on the appended key. -/
theorem lookupSec_setdefaultAppend (m : List (String × List SectionEntry)) (k q : String)
    (e : SectionEntry) :
    lookupSec (setdefaultAppend m k e) q =
      if q = k then lookupSec m k ++ [e] else lookupSec m q := by
  induction m with
  | nil =>
    simp only [setdefaultAppend, lookupSec]
    by_cases h : k = q
    · rw [if_pos h, if_pos h.symm]
      rfl
    · rw [if_neg h, if_neg (mt Eq.symm h)]
  | cons kv rest ih =>
    obtain ⟨k0, v⟩ := kv
    simp only [setdefaultAppend]
    by_cases hk : k0 = k
    · rw [if_pos hk]
      simp only [lookupSec]
      by_cases hq : k0 = q
      · have hqk : q = k := hq.symm.trans hk
        rw [if_pos hq, if_pos hqk, if_pos hk]
      · have hqk : ¬q = k := fun hh => hq (hk.trans hh.symm)
        rw [if_neg hq, if_neg hqk, if_neg hq]
    · rw [if_neg hk]
      simp only [lookupSec]
      rw [ih]
      by_cases hq : k0 = q
      · have hqk : ¬q = k := fun hh => hk (hq.trans hh)
        rw [if_pos hq, if_neg hqk, if_pos hq]
      · rw [if_neg hq]
        by_cases hqk : q = k
        · rw [if_pos hqk, if_pos hqk, if_neg hk]
        · rw [if_neg hqk, if_neg hqk, if_neg hq]

/-- Helper: the page-content side of the table loop appends exactly one
table entry per raw table, in extraction order. -/
theorem processTables_content (pageNo : Nat) (tables : List (List (List String)))
    (secs : List (String × List SectionEntry)) (content : List ContentEntry) :
    (processTables pageNo secs content tables).2 =
      content ++ tables.map (fun t => ContentEntry.table (classify_table t).2 t) := by
  induction tables generalizing secs content with
  | nil => simp [processTables]
  | cons t ts ih =>
    simp only [processTables, ih, List.map_cons, List.append_assoc, List.singleton_append]

/-- Helper: the sections side of the table loop appends, per category,
exactly the entries of the tables classified into that category. -/
theorem processTables_sections (pageNo : Nat) (tables : List (List (List String)))
    (secs : List (String × List SectionEntry)) (content : List ContentEntry) (cat : String) :
    lookupSec (processTables pageNo secs content tables).1 cat =
      lookupSec secs cat ++ pageCatEntries pageNo tables cat := by
  induction tables generalizing secs content with
  | nil => simp [processTables, pageCatEntries]
  | cons t ts ih =>
    simp only [processTables]
    rw [ih]
    cases hc : (classify_table t).1 with
    | none =>
      simp [pageCatEntries, List.filterMap_cons, hc]
    | some c =>
      by_cases he : c.data = []
      · have he2 : c.data.isEmpty = true := by rw [he]; rfl
        simp [pageCatEntries, List.filterMap_cons, hc, he, he2]
      · have he2 : c.data.isEmpty = false := by
          cases hd : c.data with
          | nil => exact absurd hd he
          | cons x xs => rfl
        by_cases hcat : c = cat
        · subst hcat
          simp [pageCatEntries, List.filterMap_cons, hc, he, he2, lookupSec_setdefaultAppend]
        · have hqc : ¬cat = c := fun hh => hcat hh.symm
          simp [pageCatEntries, List.filterMap_cons, hc, he, he2, hcat, hqc,
            lookupSec_setdefaultAppend]

/-- Helper: the page loop produces exactly the spec-level page entries and
extends each category list by the spec-level section entries. -/
theorem assemblePages_spec (pages : List PageInput) (pageNo : Nat)
    (secs : List (String × List SectionEntry)) :
    (assemblePages pageNo secs pages).2 = specPages pageNo pages ∧
    ∀ cat, lookupSec (assemblePages pageNo secs pages).1 cat =
      lookupSec secs cat ++ specSections pageNo cat pages := by
  induction pages generalizing pageNo secs with
  | nil => simp [assemblePages, specPages, specSections]
  | cons p ps ih =>
    constructor
    · simp only [assemblePages, specPages]
      refine List.cons_eq_cons.mpr ⟨?_, (ih (pageNo + 1) _).1⟩
      show PageEntry.mk pageNo _ = PageEntry.mk pageNo (specContent p)
      rw [processTables_content]
      simp [specContent, List.append_assoc]
    · intro cat
      simp only [assemblePages, specSections]
      rw [(ih (pageNo + 1) _).2 cat, processTables_sections]
      simp [List.append_assoc]

/-- C3 counterexample: for a one-page document with one classified table,
the record appended to `sections["portfolio"]` and the table record
appended to the page's content list are two differently shaped dicts
(the former has keys page/table_data/section_name, the latter
type/section/table_data), not the same record. -/
theorem tables_shared_object_counterexample :
    lookupSec (parse_pdf_to_json
        [⟨"", [[["Company", "% to Net Assets"], ["Infosys", "9.1"]]], []⟩]).sections
        "portfolio" =
      [⟨1, [["Company", "% to Net Assets"], ["Infosys", "9.1"]], some "Holdings"⟩] ∧
    (parse_pdf_to_json [⟨"", [[["Company", "% to Net Assets"], ["Infosys", "9.1"]]], []⟩]).pages =
      [⟨1, [ContentEntry.table (some "Holdings")
        [["Company", "% to Net Assets"], ["Infosys", "9.1"]]]⟩] ∧
    sectionEntryToJson ⟨1, [["Company", "% to Net Assets"], ["Infosys", "9.1"]], some "Holdings"⟩ ≠
      contentEntryToJson (ContentEntry.table (some "Holdings")
        [["Company", "% to Net Assets"], ["Infosys", "9.1"]]) := by
  refine ⟨by decide, by decide, ?_⟩
  simp only [sectionEntryToJson, contentEntryToJson, ne_eq, Json.obj.injEq, List.cons.injEq,
    Prod.mk.injEq]
  intro h
  exact absurd h.1.1 (by decide)

/-- C3 amended: every raw table contributes exactly one table entry to its
own page's content list (in extraction order), and, when its category is
truthy, exactly one entry to that category's sections list (in page
order) and to no other category; the two entries are separately
constructed records sharing the table data, not one record (see the
counterexample). -/
theorem tables_exactly_once (pages : List PageInput) :
    (parse_pdf_to_json pages).pages = specPages 1 pages ∧
    ∀ cat, lookupSec (parse_pdf_to_json pages).sections cat = specSections 1 cat pages := by
  have h := assemblePages_spec pages 1 initSections
  refine ⟨h.1, fun cat => ?_⟩
  have hsec : (parse_pdf_to_json pages).sections = (assemblePages 1 initSections pages).1 := rfl
  rw [hsec, h.2 cat]
  have hinit : lookupSec initSections cat = [] := by
    simp only [initSections, lookupSec]
    split_ifs <;> rfl
  rw [hinit]
  simp

/-! Claims about the persisted round-trip: JSON-value level. -/

/-- Helper: nullable strings decode back. -/
theorem decodeOptStr_enc (o : Option String) : decodeOptStr (optStrToJson o) = some o := by
  cases o <;> rfl

/-- Helper: an element-wise decoder inverts an element-wise encoder. -/
theorem optMapM_map_enc {α β : Type} (f : β → Option α) (g : α → β)
    (h : ∀ a, f (g a) = some a) (l : List α) : optMapM f (l.map g) = some l := by
  induction l with
  | nil => rfl
  | cons a as ih => simp [optMapM, h, ih]

/-- Helper: a table row decodes back. -/
theorem decodeRow_enc (row : List String) :
    decodeRow (Json.arr (row.map Json.str)) = some row := by
  simp only [decodeRow]
  exact optMapM_map_enc decodeStr Json.str (fun a => rfl) row

/-- Helper: a raw table decodes back. -/
theorem decodeTable_enc (t : List (List String)) : decodeTable (tableDataToJson t) = some t := by
  simp only [tableDataToJson, decodeTable]
  exact optMapM_map_enc _ _ decodeRow_enc t

/-- Helper: a content entry decodes back. -/
theorem decodeContentEntry_enc (e : ContentEntry) :
    decodeContentEntry (contentEntryToJson e) = some e := by
  cases e with
  | paragraph p =>
    obtain ⟨sec, sub, txt⟩ := p
    cases sub <;> rfl
  | table sect td =>
    simp [contentEntryToJson, decodeContentEntry, jLookup, decodeOptStr_enc, decodeTable_enc]
  | chart img ds =>
    cases ds <;> rfl

/-- Helper: a sections-map entry decodes back. -/
theorem decodeSectionEntry_enc (e : SectionEntry) :
    decodeSectionEntry (sectionEntryToJson e) = some e := by
  simp [sectionEntryToJson, decodeSectionEntry, jLookup, decodeNum, decodeOptStr_enc,
    decodeTable_enc]

/-- Helper: the metadata record decodes back. -/
theorem decodeMetadata_enc (md : Metadata) : decodeMetadata (metadataToJson md) = some md := rfl

/-- Helper: the sections map decodes back. -/
theorem decodeSections_enc (m : List (String × List SectionEntry)) :
    decodeSections (sectionsToJson m) = some m := by
  simp only [sectionsToJson, decodeSections]
  refine optMapM_map_enc _ _ (fun kv => ?_) m
  simp [decodeSecList, optMapM_map_enc _ _ decodeSectionEntry_enc]

/-- Helper: a page entry decodes back. -/
theorem decodePageEntry_enc (pe : PageEntry) :
    decodePageEntry (pageEntryToJson pe) = some pe := by
  simp [pageEntryToJson, decodePageEntry, jLookup, decodeNum,
    optMapM_map_enc _ _ decodeContentEntry_enc]

/-- Helper: the whole Structured Document decodes back from its JSON
value. -/
theorem decodeDocJson_enc (d : StructuredDoc) : decodeDocJson (docToJson d) = some d := by
  simp [docToJson, decodeDocJson, jLookup, decodeMetadata_enc, decodeSections_enc,
    optMapM_map_enc _ _ decodePageEntry_enc]

/-! Claims about the persisted round-trip: text level. -/

/-- Helper: decimal digit characters decode back. -/
theorem charToDigit_digitToChar (d : Nat) (h : d < 10) :
    charToDigit? (digitToChar d) = some d := by
  interval_cases d <;> rfl

/-- Helper: decimal digit characters are digit tokens. -/
theorem isDigitTok_digitToChar (d : Nat) (h : d < 10) : isDigitTok (digitToChar d) = true := by
  interval_cases d <;> rfl

/-- Helper: hexadecimal digit characters decode back. -/
theorem hexToDigit_hexDigitChar (m : Nat) (h : m < 16) :
    hexToDigit? (hexDigitChar m) = some m := by
  interval_cases m <;> rfl

/-- Helper: every character escape is at least one character long. -/
theorem escapeChar_len_pos (c : Char) : 1 ≤ (escapeChar c).length := by
  unfold escapeChar
  split_ifs <;> simp

/-- Helper: escaping does not shorten a string. -/
theorem escList_len_ge (l : List Char) : l.length ≤ (escList l).length := by
  induction l with
  | nil => simp [escList]
  | cons c cs ih =>
    rw [escList]
    simp only [List.length_append, List.length_cons]
    have := escapeChar_len_pos c
    omega

/-- Helper: unescaping inverts escaping, leaving the remainder after the
closing quote untouched; any fuel beyond the decoded length suffices. -/
theorem parseStrBody_escList (l : List Char) :
    ∀ (fuel : Nat) (rest : List Char), l.length < fuel →
      parseStrBody fuel (escList l ++ ('"' :: rest)) = some (l, rest) := by
  induction l with
  | nil =>
    intro fuel rest hf
    cases fuel with
    | zero => omega
    | succ f =>
      rw [escList, List.nil_append, parseStrBody, if_pos rfl]
  | cons c cs ih =>
    intro fuel rest hf
    cases fuel with
    | zero => omega
    | succ f =>
      have hcs : cs.length < f := by
        simp only [List.length_cons] at hf
        omega
      rw [escList, List.append_assoc]
      by_cases h1 : c = '"'
      · subst h1
        show parseStrBody (f + 1) ('\\' :: ('"' :: (escList cs ++ ('"' :: rest)))) = _
        rw [parseStrBody, if_neg (by decide), if_pos rfl]
        show (parseStrBody f (escList cs ++ ('"' :: rest))).map
          (fun q => ('"' :: q.1, q.2)) = _
        rw [ih f rest hcs]
        rfl
      · by_cases h2 : c = '\\'
        · subst h2
          show parseStrBody (f + 1) ('\\' :: ('\\' :: (escList cs ++ ('"' :: rest)))) = _
          rw [parseStrBody, if_neg (by decide), if_pos rfl]
          show (parseStrBody f (escList cs ++ ('"' :: rest))).map
            (fun q => ('\\' :: q.1, q.2)) = _
          rw [ih f rest hcs]
          rfl
        · by_cases h3 : c = '\n'
          · subst h3
            show parseStrBody (f + 1) ('\\' :: ('n' :: (escList cs ++ ('"' :: rest)))) = _
            rw [parseStrBody, if_neg (by decide), if_pos rfl]
            show (parseStrBody f (escList cs ++ ('"' :: rest))).map
              (fun q => ('\n' :: q.1, q.2)) = _
            rw [ih f rest hcs]
            rfl
          · by_cases h4 : c = '\t'
            · subst h4
              show parseStrBody (f + 1) ('\\' :: ('t' :: (escList cs ++ ('"' :: rest)))) = _
              rw [parseStrBody, if_neg (by decide), if_pos rfl]
              show (parseStrBody f (escList cs ++ ('"' :: rest))).map
                (fun q => ('\t' :: q.1, q.2)) = _
              rw [ih f rest hcs]
              rfl
            · by_cases h5 : c = '\x0d'
              · subst h5
                show parseStrBody (f + 1)
                  ('\\' :: ('r' :: (escList cs ++ ('"' :: rest)))) = _
                rw [parseStrBody, if_neg (by decide), if_pos rfl]
                show (parseStrBody f (escList cs ++ ('"' :: rest))).map
                  (fun q => ('\x0d' :: q.1, q.2)) = _
                rw [ih f rest hcs]
                rfl
              · by_cases h6 : c = '\x08'
                · subst h6
                  show parseStrBody (f + 1)
                    ('\\' :: ('b' :: (escList cs ++ ('"' :: rest)))) = _
                  rw [parseStrBody, if_neg (by decide), if_pos rfl]
                  show (parseStrBody f (escList cs ++ ('"' :: rest))).map
                    (fun q => ('\x08' :: q.1, q.2)) = _
                  rw [ih f rest hcs]
                  rfl
                · by_cases h7 : c = '\x0c'
                  · subst h7
                    show parseStrBody (f + 1)
                      ('\\' :: ('f' :: (escList cs ++ ('"' :: rest)))) = _
                    rw [parseStrBody, if_neg (by decide), if_pos rfl]
                    show (parseStrBody f (escList cs ++ ('"' :: rest))).map
                      (fun q => ('\x0c' :: q.1, q.2)) = _
                    rw [ih f rest hcs]
                    rfl
                  · by_cases h8 : c.toNat < 32
                    · have hesc : escapeChar c =
                          ['\\', 'u', '0', '0', hexDigitChar (c.toNat / 16),
                            hexDigitChar (c.toNat % 16)] := by
                        rw [escapeChar, if_neg h1, if_neg h2, if_neg h3, if_neg h4, if_neg h5,
                          if_neg h6, if_neg h7, if_pos h8]
                      rw [hesc]
                      have hhesc : hEsc ('u' :: '0' :: '0' :: hexDigitChar (c.toNat / 16) ::
                          hexDigitChar (c.toNat % 16) :: (escList cs ++ ('"' :: rest))) =
                          some (Char.ofNat c.toNat, escList cs ++ ('"' :: rest)) := by
                        show (match hexToDigit? '0', hexToDigit? '0',
                            hexToDigit? (hexDigitChar (c.toNat / 16)),
                            hexToDigit? (hexDigitChar (c.toNat % 16)) with
                          | some a, some b, some c2, some d =>
                            some (Char.ofNat (((a * 16 + b) * 16 + c2) * 16 + d),
                              escList cs ++ ('"' :: rest))
                          | _, _, _, _ => none) = _
                        rw [hexToDigit_hexDigitChar _ (by omega),
                          hexToDigit_hexDigitChar _ (by omega)]
                        show some (Char.ofNat
                          (((0 * 16 + 0) * 16 + c.toNat / 16) * 16 + c.toNat % 16),
                          escList cs ++ ('"' :: rest)) = _
                        have harith : ((0 * 16 + 0) * 16 + c.toNat / 16) * 16 +
                            c.toNat % 16 = c.toNat := by omega
                        rw [harith]
                      show parseStrBody (f + 1) ('\\' :: ('u' :: '0' :: '0' ::
                        hexDigitChar (c.toNat / 16) :: hexDigitChar (c.toNat % 16) ::
                        (escList cs ++ ('"' :: rest)))) = _
                      rw [parseStrBody, if_neg (by decide), if_pos rfl, hhesc]
                      show (parseStrBody f (escList cs ++ ('"' :: rest))).map
                        (fun q => (Char.ofNat c.toNat :: q.1, q.2)) = some (c :: cs, rest)
                      rw [ih f rest hcs, Option.map_some', Char.ofNat_toNat]
                    · have hesc : escapeChar c = [c] := by
                        rw [escapeChar, if_neg h1, if_neg h2, if_neg h3, if_neg h4, if_neg h5,
                          if_neg h6, if_neg h7, if_neg h8]
                      rw [hesc, List.singleton_append, parseStrBody, if_neg h1, if_neg h2,
                        if_neg h8, ih f rest hcs]
                      rfl

/-- Helper: takeWhile over an all-true block followed by a failing head
keeps exactly the block. -/
theorem takeWhile_all_append (p : Char → Bool) (l r : List Char)
    (hl : ∀ c ∈ l, p c = true) (hr : ∀ c, r.head? = some c → p c = false) :
    (l ++ r).takeWhile p = l := by
  induction l with
  | nil =>
    cases r with
    | nil => rfl
    | cons c cs =>
      simp [List.takeWhile_cons, hr c rfl]
  | cons a as ih =>
    simp [List.takeWhile_cons, hl a (List.mem_cons_self a as)]
    exact ih (fun x hx => hl x (List.mem_cons_of_mem a hx))

/-- Helper: folding the decimal digits of a numeral back into a value. -/
theorem foldl_digits_rev (ds : List Nat) (hds : ∀ d ∈ ds, d < 10) :
    ∀ a : Nat, (ds.reverse.map digitToChar).foldl
      (fun acc c => acc * 10 + ((charToDigit? c).getD 0)) a =
      a * 10 ^ ds.length + Nat.ofDigits 10 ds := by
  induction ds with
  | nil => intro a; simp [Nat.ofDigits_nil]
  | cons d ds ih =>
    intro a
    simp only [List.reverse_cons, List.map_append, List.foldl_append, List.map_cons,
      List.map_nil, List.foldl_cons, List.foldl_nil]
    rw [ih (fun x hx => hds x (List.mem_cons_of_mem d hx)) a]
    rw [charToDigit_digitToChar d (hds d (List.mem_cons_self d ds))]
    rw [Nat.ofDigits_cons]
    simp only [List.length_cons, Option.getD_some]
    ring

/-- Helper: every character of a serialized numeral is a digit. -/
theorem serNat_all_digits (n : Nat) : ∀ c ∈ serNat n, isDigitTok c = true := by
  intro c hc
  unfold serNat at hc
  by_cases h : n = 0
  · rw [if_pos h] at hc
    simp only [List.mem_singleton] at hc
    subst hc
    rfl
  · rw [if_neg h] at hc
    simp only [List.mem_map, List.mem_reverse] at hc
    obtain ⟨d, hd, rfl⟩ := hc
    exact isDigitTok_digitToChar d (Nat.digits_lt_base (by norm_num) hd)

/-- Helper: a serialized numeral is non-empty. -/
theorem serNat_ne_nil (n : Nat) : serNat n ≠ [] := by
  unfold serNat
  by_cases h : n = 0
  · simp [h]
  · rw [if_neg h]
    have hd := (@Nat.digits_ne_nil_iff_ne_zero 10 n).mpr h
    simp [hd]

/-- Helper: folding a whole serialized numeral recovers the number. -/
theorem serNat_foldl (n : Nat) :
    (serNat n).foldl (fun acc c => acc * 10 + ((charToDigit? c).getD 0)) 0 = n := by
  by_cases h : n = 0
  · subst h; rfl
  · unfold serNat
    rw [if_neg h]
    rw [foldl_digits_rev (Nat.digits 10 n) (fun d hd => Nat.digits_lt_base (by norm_num) hd) 0]
    simp [Nat.ofDigits_digits]

/-- Helper: the numeral token parser inverts numeral serialization when
the remainder does not begin with a digit. -/
theorem parseNatTok_serNat (n : Nat) (rest : List Char) (hrest : headNonDigit rest = true) :
    parseNatTok (serNat n ++ rest) = some (n, rest) := by
  have hr : ∀ c, rest.head? = some c → isDigitTok c = false := by
    intro c hc
    cases rest with
    | nil => simp at hc
    | cons r rs =>
      simp only [List.head?_cons, Option.some.injEq] at hc
      subst hc
      unfold headNonDigit at hrest
      simpa using hrest
  have htw : (serNat n ++ rest).takeWhile isDigitTok = serNat n :=
    takeWhile_all_append _ _ _ (serNat_all_digits n) hr
  unfold parseNatTok
  dsimp only
  rw [htw]
  have hie : (serNat n).isEmpty = false := by
    cases hsn : serNat n with
    | nil => exact absurd hsn (serNat_ne_nil n)
    | cons x xs => rfl
  rw [hie]
  simp only [Bool.false_eq_true, if_false]
  rw [List.drop_left, serNat_foldl]

/-- Helper: a serialized numeral starts with a digit character. -/
theorem serNat_shape (n : Nat) : ∃ c t, serNat n = c :: t ∧ isDigitTok c = true := by
  cases hsn : serNat n with
  | nil => exact absurd hsn (serNat_ne_nil n)
  | cons c t =>
    refine ⟨c, t, rfl, ?_⟩
    have : c ∈ serNat n := by rw [hsn]; exact List.mem_cons_self c t
    exact serNat_all_digits n c this

/-- Helper: a serialized value starts with a character that is not a
closing bracket, closing brace, comma or colon. -/
theorem serVal_shape (j : Json) :
    ∃ c t, serVal j = c :: t ∧ c ≠ ']' ∧ c ≠ '}' ∧ c ≠ ',' ∧ c ≠ ':' := by
  cases j with
  | null =>
    exact ⟨'n', ['u', 'l', 'l'], by simp [serVal], by decide, by decide, by decide, by decide⟩
  | str s =>
    exact ⟨'"', escList s.data ++ ['"'], by simp [serVal, serStr], by decide, by decide,
      by decide, by decide⟩
  | num n =>
    obtain ⟨c, t, hsn, hdig⟩ := serNat_shape n
    refine ⟨c, t, by simp [serVal, hsn], ?_, ?_, ?_, ?_⟩ <;>
      (intro hh; rw [hh] at hdig; exact absurd hdig (by decide))
  | arr xs =>
    exact ⟨'[', serElems xs, by simp [serVal], by decide, by decide, by decide, by decide⟩
  | obj kvs =>
    exact ⟨'{', serMembers kvs, by simp [serVal], by decide, by decide, by decide, by decide⟩

/-- Helper: parser fuel requirements are positive. -/
theorem jsizeV_pos (j : Json) : 1 ≤ jsizeV j := by
  cases j <;> simp [jsizeV]

/-- Helper: element-list fuel requirements are positive. -/
theorem jsizeL_pos (xs : List Json) : 1 ≤ jsizeL xs := by
  cases xs <;> simp [jsizeL]

/-- Helper: member-list fuel requirements are positive. -/
theorem jsizeM_pos (kvs : List (String × Json)) : 1 ≤ jsizeM kvs := by
  cases kvs with
  | nil => simp [jsizeM]
  | cons kv kvs => obtain ⟨k, v⟩ := kv; simp [jsizeM]

/-- Helper: the fueled parser inverts serialization — for any value whose
nesting size fits in the fuel, parsing its serialization followed by any
remainder (not starting with a digit, so number tokens cannot merge)
returns the value and the remainder; likewise for element and member
lists. -/
theorem parse_ser (fuel : Nat) :
    (∀ (j : Json) (rest : List Char), jsizeV j ≤ fuel → headNonDigit rest = true →
      parseVal fuel (serVal j ++ rest) = some (j, rest)) ∧
    (∀ (xs : List Json) (rest : List Char), jsizeL xs ≤ fuel →
      parseElems fuel (serElems xs ++ rest) = some (xs, rest)) ∧
    (∀ (kvs : List (String × Json)) (rest : List Char), jsizeM kvs ≤ fuel →
      parseMembers fuel (serMembers kvs ++ rest) = some (kvs, rest)) := by
  induction fuel with
  | zero =>
    refine ⟨fun j rest hj _ => ?_, fun xs rest hx => ?_, fun kvs rest hk => ?_⟩
    · have := jsizeV_pos j; omega
    · have := jsizeL_pos xs; omega
    · have := jsizeM_pos kvs; omega
  | succ fuel ih =>
    obtain ⟨ihV, ihE, ihM⟩ := ih
    refine ⟨?_, ?_, ?_⟩
    · intro j rest hj hrest
      cases j with
      | null =>
        rw [show serVal Json.null = ['n', 'u', 'l', 'l'] from by simp [serVal]]
        show parseVal (fuel + 1) ('n' :: ('u' :: 'l' :: 'l' :: rest)) = _
        rw [parseVal, if_neg (by decide), if_pos rfl]
        rfl
      | str s =>
        rw [show serVal (Json.str s) = '"' :: (escList s.data ++ ['"']) from by
          simp [serVal, serStr]]
        rw [List.cons_append, List.append_assoc, List.singleton_append]
        rw [parseVal, if_neg (by decide), if_neg (by decide), if_pos rfl]
        rw [parseStrBody_escList s.data _ rest (by
          have := escList_len_ge s.data
          simp only [List.length_append, List.length_cons]
          omega)]
        rfl
      | num n =>
        obtain ⟨c, t, hsn, hdig⟩ := serNat_shape n
        rw [show serVal (Json.num n) = serNat n from by simp [serVal], hsn, List.cons_append]
        rw [parseVal, if_pos hdig]
        rw [← List.cons_append, ← hsn, parseNatTok_serNat n rest hrest]
        rfl
      | arr xs =>
        rw [show serVal (Json.arr xs) = '[' :: serElems xs from by simp [serVal],
          List.cons_append]
        rw [parseVal, if_neg (by decide), if_neg (by decide), if_neg (by decide), if_pos rfl]
        rw [ihE xs rest (by simp only [jsizeV] at hj; omega)]
        rfl
      | obj kvs =>
        rw [show serVal (Json.obj kvs) = '{' :: serMembers kvs from by simp [serVal],
          List.cons_append]
        rw [parseVal, if_neg (by decide), if_neg (by decide), if_neg (by decide),
          if_neg (by decide), if_pos rfl]
        rw [ihM kvs rest (by simp only [jsizeV] at hj; omega)]
        rfl
    · intro xs rest hx
      rcases xs with _ | ⟨x, _ | ⟨y, ys⟩⟩
      · rw [show serElems ([] : List Json) = [']'] from by simp [serElems],
          List.singleton_append]
        rw [parseElems, if_pos rfl]
        rfl
      · rw [show serElems [x] = serVal x ++ [']'] from by simp [serElems]]
        rw [List.append_assoc, List.singleton_append]
        obtain ⟨c, t, hsv, hc1, hc2, hc3, hc4⟩ := serVal_shape x
        rw [hsv, List.cons_append]
        rw [parseElems, if_neg hc1]
        rw [← List.cons_append, ← hsv]
        have hszx : jsizeV x ≤ fuel := by
          simp only [jsizeL] at hx
          have h1 := le_max_left (jsizeV x) (jsizeL ([] : List Json))
          omega
        rw [ihV x (']' :: rest) hszx (by rfl)]
        show elemsCont fuel x (']' :: rest) = some ([x], rest)
        rw [elemsCont]
      · rw [show serElems (x :: y :: ys) = serVal x ++ (',' :: serElems (y :: ys)) from by
          simp [serElems]]
        rw [List.append_assoc, List.cons_append]
        obtain ⟨c, t, hsv, hc1, hc2, hc3, hc4⟩ := serVal_shape x
        rw [hsv, List.cons_append]
        rw [parseElems, if_neg hc1]
        rw [← List.cons_append, ← hsv]
        have h1 := le_max_left (jsizeV x) (jsizeL (y :: ys))
        have h2 := le_max_right (jsizeV x) (jsizeL (y :: ys))
        rw [jsizeL] at hx
        have hszx : jsizeV x ≤ fuel := by omega
        have hszt : jsizeL (y :: ys) ≤ fuel := by omega
        rw [ihV x (',' :: (serElems (y :: ys) ++ rest)) hszx (by rfl)]
        show elemsCont fuel x (',' :: (serElems (y :: ys) ++ rest)) = some (x :: y :: ys, rest)
        rw [elemsCont, ihE (y :: ys) rest hszt]
        rfl
    · intro kvs rest hk
      rcases kvs with _ | ⟨⟨k, v⟩, _ | ⟨⟨k2, v2⟩, kvs2⟩⟩
      · rw [show serMembers ([] : List (String × Json)) = ['}'] from by simp [serMembers],
          List.singleton_append]
        rw [parseMembers, if_pos rfl]
      · rw [show serMembers [(k, v)] = serStr k ++ (':' :: serVal v) ++ ['}'] from by
          simp [serMembers]]
        rw [List.append_assoc, List.append_assoc, List.singleton_append, List.cons_append]
        rw [show serStr k = '"' :: (escList k.data ++ ['"']) from by simp [serStr]]
        rw [List.cons_append, List.append_assoc, List.singleton_append]
        rw [parseMembers, if_neg (by decide), if_pos rfl]
        rw [parseStrBody_escList k.data _ _ (by
          have := escList_len_ge k.data
          simp only [List.length_append, List.length_cons]
          omega)]
        show membersKey fuel ⟨k.data⟩ (':' :: (serVal v ++ ('}' :: rest))) = some ([(k, v)], rest)
        rw [membersKey]
        have hszv : jsizeV v ≤ fuel := by
          simp only [jsizeM] at hk
          have h1 := le_max_left (jsizeV v) (jsizeM ([] : List (String × Json)))
          omega
        rw [ihV v ('}' :: rest) hszv (by rfl)]
        show membersVal fuel ⟨k.data⟩ v ('}' :: rest) = some ([(k, v)], rest)
        rw [membersVal]
      · rw [show serMembers ((k, v) :: (k2, v2) :: kvs2) =
          serStr k ++ (':' :: serVal v) ++ (',' :: serMembers ((k2, v2) :: kvs2)) from by
          simp [serMembers]]
        rw [List.append_assoc, List.append_assoc, List.cons_append, List.cons_append]
        rw [show serStr k = '"' :: (escList k.data ++ ['"']) from by simp [serStr]]
        rw [List.cons_append, List.append_assoc, List.singleton_append]
        rw [parseMembers, if_neg (by decide), if_pos rfl]
        rw [parseStrBody_escList k.data _ _ (by
          have := escList_len_ge k.data
          simp only [List.length_append, List.length_cons]
          omega)]
        show membersKey fuel ⟨k.data⟩
          (':' :: (serVal v ++ (',' :: (serMembers ((k2, v2) :: kvs2) ++ rest)))) =
          some ((k, v) :: (k2, v2) :: kvs2, rest)
        rw [membersKey]
        have h1 := le_max_left (jsizeV v) (jsizeM ((k2, v2) :: kvs2))
        have h2 := le_max_right (jsizeV v) (jsizeM ((k2, v2) :: kvs2))
        rw [jsizeM] at hk
        have hszv : jsizeV v ≤ fuel := by omega
        have hszt : jsizeM ((k2, v2) :: kvs2) ≤ fuel := by omega
        rw [ihV v (',' :: (serMembers ((k2, v2) :: kvs2) ++ rest)) hszv (by rfl)]
        show membersVal fuel ⟨k.data⟩ v (',' :: (serMembers ((k2, v2) :: kvs2) ++ rest)) =
          some ((k, v) :: (k2, v2) :: kvs2, rest)
        rw [membersVal, ihM ((k2, v2) :: kvs2) rest hszt]
        rfl

/-- Helper: the parser fuel needed by a value is bounded by its serialized
length (proved by strong induction over the structural size). -/
theorem jsize_le_len_aux (n : Nat) :
    (∀ j : Json, sizeOf j ≤ n → jsizeV j ≤ (serVal j).length) ∧
    (∀ xs : List Json, sizeOf xs ≤ n → jsizeL xs ≤ (serElems xs).length) ∧
    (∀ kvs : List (String × Json), sizeOf kvs ≤ n → jsizeM kvs ≤ (serMembers kvs).length) := by
  induction n with
  | zero =>
    refine ⟨fun j hj => ?_, fun xs hx => ?_, fun kvs hk => ?_⟩
    · cases j <;> simp_all
    · cases xs <;> simp_all
    · cases kvs <;> simp_all
  | succ n ih =>
    obtain ⟨ihV, ihE, ihM⟩ := ih
    refine ⟨fun j hj => ?_, fun xs hx => ?_, fun kvs hk => ?_⟩
    · cases j with
      | null => simp [jsizeV, serVal]
      | str s =>
        simp only [jsizeV, serVal, serStr, List.length_cons]
        omega
      | num m =>
        obtain ⟨c, t, hsn, _⟩ := serNat_shape m
        simp only [jsizeV, serVal, hsn, List.length_cons]
        omega
      | arr xs =>
        have hx : sizeOf xs ≤ n := by simp at hj; omega
        have := ihE xs hx
        simp only [jsizeV, serVal, List.length_cons]
        omega
      | obj kvs =>
        have hk : sizeOf kvs ≤ n := by simp at hj; omega
        have := ihM kvs hk
        simp only [jsizeV, serVal, List.length_cons]
        omega
    · rcases xs with _ | ⟨x, _ | ⟨y, ys⟩⟩
      · simp [jsizeL, serElems]
      · have hszx : sizeOf x ≤ n := by simp at hx; omega
        have hvx := ihV x hszx
        obtain ⟨c, t, hsv, _⟩ := serVal_shape x
        have hlen : 1 ≤ (serVal x).length := by rw [hsv]; simp
        have hmax : max (jsizeV x) (jsizeL ([] : List Json)) ≤ (serVal x).length :=
          max_le hvx (by simp [jsizeL]; omega)
        simp only [jsizeL, serElems, List.length_append, List.length_cons,
          List.length_nil]
        omega
      · have hszx : sizeOf x ≤ n := by simp at hx; omega
        have hszt : sizeOf (y :: ys) ≤ n := by simp at hx; simp; omega
        have hvx := ihV x hszx
        have hvt := ihE (y :: ys) hszt
        have hmax : max (jsizeV x) (jsizeL (y :: ys)) ≤
            (serVal x).length + (serElems (y :: ys)).length :=
          max_le (le_trans hvx (Nat.le_add_right _ _)) (le_trans hvt (Nat.le_add_left _ _))
        rw [jsizeL, serElems]
        · simp only [List.length_append, List.length_cons]
          omega
        · simp
    · rcases kvs with _ | ⟨⟨k, v⟩, _ | ⟨⟨k2, v2⟩, kvs2⟩⟩
      · simp [jsizeM, serMembers]
      · have hszv : sizeOf v ≤ n := by simp at hk; omega
        have hvv := ihV v hszv
        have hmax : max (jsizeV v) (jsizeM ([] : List (String × Json))) ≤
            (serVal v).length + 1 :=
          max_le (le_trans hvv (Nat.le_add_right _ _)) (by simp [jsizeM])
        simp only [jsizeM, serMembers, List.length_append, List.length_cons]
        omega
      · have hszv : sizeOf v ≤ n := by simp at hk; omega
        have hszt : sizeOf ((k2, v2) :: kvs2) ≤ n := by simp at hk; simp; omega
        have hvv := ihV v hszv
        have hvt := ihM ((k2, v2) :: kvs2) hszt
        have hmax : max (jsizeV v) (jsizeM ((k2, v2) :: kvs2)) ≤
            (serVal v).length + (serMembers ((k2, v2) :: kvs2)).length :=
          max_le (le_trans hvv (Nat.le_add_right _ _)) (le_trans hvt (Nat.le_add_left _ _))
        rw [jsizeM, serMembers]
        · simp only [List.length_append, List.length_cons]
          omega
        · simp

/-- C9: encoding a Structured Document to the persisted text form and
decoding it back yields the document unchanged, field for field —
including empty sections categories and null category/label on
unclassified tables, which survive as empty arrays and JSON nulls. -/
theorem structured_doc_roundtrip (d : StructuredDoc) :
    decodeDoc (encodeDoc d) = some d := by
  have hsize : jsizeV (docToJson d) ≤ (serVal (docToJson d)).length + 1 :=
    le_trans ((jsize_le_len_aux (sizeOf (docToJson d))).1 (docToJson d) le_rfl)
      (Nat.le_succ _)
  have h := (parse_ser ((serVal (docToJson d)).length + 1)).1 (docToJson d) [] hsize rfl
  rw [List.append_nil] at h
  unfold decodeDoc decodeJson encodeDoc
  show (match parseVal ((serVal (docToJson d)).length + 1) (serVal (docToJson d)) with
        | some (j, []) => some j
        | _ => none).bind decodeDocJson = some d
  rw [h]
  show decodeDocJson (docToJson d) = some d
  exact decodeDocJson_enc d
